import Mathlib

/-! go-mixed/watcher: snapshot comparison and content-identity engine

A shallow embedding of `adapter.go`, `file.go`, `bbolt.go`, `path.go` and
`watch.go`.

Modelling conventions.

* A Go `map[string]*FileInfo` is an association list with pairwise distinct
  keys (`AList`).  A `range` over the map visits the entries in the order of
  the list, and the general statements below hold for every list, hence
  whatever the order of the entries.
* Every collection owns its entries: an entry is a value stored under its key
  and a write through the Go pointer is a replacement of the value stored
  under that key.  Map values are never nil.
* `[]byte` is `Option (List Byte)`: `none` is the nil slice, `some []` an
  empty slice that is not nil.
* `int64` sizes are integers, `uint32` modes are natural numbers.
* `time.Time` is an instant together with the location the value carries:
  `Time.Equal` compares instants, the Go operator `==` compares both.
* The libraries (`path/filepath`, `sonic`, the file system and the hash
  function) are parameters; the bolt store is a small model of its buckets
  with a log of the calls made on it.
-/

namespace Watcher

/-! ## Data model (`file.go`) -/

/-- One byte of a hash sum. -/
abbrev Byte := Fin 256

/-- A `time.Time` without monotonic clock reading: the instant in nanoseconds
and the identity of the location the value carries. -/
structure Time where
  instant : Int
  loc : Nat
deriving DecidableEq, Repr

/-- The method `time.Time.Equal`: same instant, whatever the location. -/
def Time.Equal (t u : Time) : Bool := decide (t.instant = u.instant)

/-- What `os.SameFile` reads from an `os.FileInfo` obtained from the file
system: device and inode. -/
structure SysFileInfo where
  dev : Nat
  ino : Nat
deriving DecidableEq, Repr

/-- The function `os.SameFile` on two file system stat results. -/
def osSameFile (a b : SysFileInfo) : Bool := decide (a.dev = b.dev) && decide (a.ino = b.ino)

/-- The struct `FileInfo`; `sys` is the embedded `os.FileInfo`, `none` when nil. -/
structure FileInfo where
  FileName : String
  FilePath : String
  FileSize : Int
  FileMode : Nat
  FileHashSum : Option (List Byte)
  FileMtime : Time
  sys : Option SysFileInfo
deriving DecidableEq, Repr

/-- The bit `os.ModeDir`, `1 << 31`. -/
def ModeDir : Nat := 2147483648

/-- The bit `os.ModeSymlink`, `1 << 27`. -/
def ModeSymlink : Nat := 134217728

namespace FileInfo

def Size (fi : FileInfo) : Int := fi.FileSize

def Mode (fi : FileInfo) : Nat := fi.FileMode

def IsDir (fi : FileInfo) : Bool := fi.Mode &&& ModeDir != 0

def Name (fi : FileInfo) : String := fi.FileName

def Path (fi : FileInfo) : String := fi.FilePath

def ModTime (fi : FileInfo) : Time := fi.FileMtime

def HashSum (fi : FileInfo) : Option (List Byte) := fi.FileHashSum

def HasSysFileInfo (fi : FileInfo) : Bool := fi.sys.isSome

end FileInfo

/-- The builtin `len` on a byte slice: 0 on the nil slice. -/
def bytesLen (b : Option (List Byte)) : Nat := (b.getD []).length

/-- The function `bytes.Equal`: a nil slice equals an empty one. -/
def bytesEqual (a b : Option (List Byte)) : Bool := decide (a.getD [] = b.getD [])

/-- The function `formatPath` of `path.go` (the build that is not for Windows). -/
def formatPath (path : String) : String := path

/-- The type `FileInfos`, `map[string]*FileInfo`. -/
abbrev FileInfos := AList (fun _ : String => FileInfo)

/-- The function `NewFileInfos`. -/
def NewFileInfos : FileInfos := ∅

namespace FileInfos

def Has (fis : FileInfos) (path : String) : Bool := (fis.lookup (formatPath path)).isSome

def Put (fis : FileInfos) (path : String) (fi : FileInfo) : FileInfos :=
  fis.insert (formatPath path) fi

def Get (fis : FileInfos) (path : String) : Option FileInfo := fis.lookup (formatPath path)

def Delete (fis : FileInfos) (path : String) : FileInfos := fis.erase (formatPath path)

def Len (fis : FileInfos) : Nat := fis.entries.length

def Keys (fis : FileInfos) : List String := fis.entries.map (fun e => e.1)

def Values (fis : FileInfos) : List FileInfo := fis.entries.map (fun e => e.2)

/-- The method `Append`: merges the given collections into the receiver. -/
def Append (fis : FileInfos) (infoList : List FileInfos) : FileInfos :=
  infoList.foldl (fun acc infos => infos.entries.foldl (fun a e => a.insert e.1 e.2) acc) fis

end FileInfos

/-- The function `sameFile`: the pair `(sameFileID, sameContent)`. -/
def sameFile (fi1 fi2 : FileInfo) : Bool × Bool :=
  let sameFileID :=
    match fi1.sys, fi2.sys with
    | some a, some b => osSameFile a b
    | _, _ => false
  let sameContent :=
    if fi1.IsDir == fi2.IsDir then
      if !fi1.IsDir then
        if fi1.Size == fi2.Size && fi1.HashSum != none && fi2.HashSum != none then
          bytesEqual fi1.HashSum fi2.HashSum
        else false
      else
        fi1.ModTime == fi2.ModTime && fi1.Size == fi2.Size && fi1.Mode == fi2.Mode
          && fi1.IsDir == fi2.IsDir
    else false
  (sameFileID, sameContent)

/-! ## The adapter (`adapter.go`) -/

/-- The struct `fileStats`. -/
structure fileStats where
  FileCount : Int
  DirCount : Int
  LinkCount : Int
  TotalSize : Int
deriving DecidableEq, Repr

/-- The struct `adapterSetting`. -/
structure adapterSetting where
  RootPath : String
  At : Time
  HashAlgorithm : String
  Stats : fileStats
deriving DecidableEq, Repr

/-- The struct `Adapter`: `hash` is the digest the hash object computes of the
bytes written to it since its last reset, `fileList` the last known collection
of every root and `settings` its setting (a nil pointer is `none`), both
keyed by the formatted root path. -/
structure Adapter where
  hashAlgorithm : String
  hash : List Byte → List Byte
  fileList : AList (fun _ : String => FileInfos)
  settings : AList (fun _ : String => Option adapterSetting)

/-- The head of `compareCUD`: the collection stored for the root, or an empty
one when there is none. -/
def Adapter.oldFileInfos (s : Adapter) (rootPath : String) : FileInfos :=
  match s.fileList.lookup (formatPath rootPath) with
  | some old => old
  | none => NewFileInfos

/-- The result of `compareCUD`: the three returned collections and the current
collection as the in-place writes of the hash sums leave it. -/
structure CUD where
  created : FileInfos
  updated : FileInfos
  deleted : FileInfos
  current : FileInfos

/-- One iteration of the first loop of `compareCUD`. -/
def cudStep (old : FileInfos) (acc : FileInfos × FileInfos × FileInfos)
    (e : (_ : String) × FileInfo) : FileInfos × FileInfos × FileInfos :=
  let (created, updated, current) := acc
  let path := e.1
  let currentFile := e.2
  match old.lookup path with
  | none => (created.Put path currentFile, updated, current)
  | some oldFile =>
    if !currentFile.FileMtime.Equal oldFile.FileMtime || currentFile.FileSize != oldFile.FileSize then
      (created, updated.Put path currentFile, current)
    else
      (created, updated, current.insert path { currentFile with FileHashSum := oldFile.FileHashSum })

/-- One iteration of the second loop of `compareCUD`. -/
def delStep (current : FileInfos) (deleted : FileInfos) (e : (_ : String) × FileInfo) : FileInfos :=
  match current.lookup e.1 with
  | none => deleted.Put e.1 e.2
  | some _ => deleted

/-- The method `compareCUD`. -/
def Adapter.compareCUD (s : Adapter) (rootPath : String) (currentFileInfos : FileInfos) : CUD :=
  let old := s.oldFileInfos rootPath
  let r := currentFileInfos.entries.foldl (cudStep old) (NewFileInfos, NewFileInfos, currentFileInfos)
  let deleted := old.entries.foldl (delStep currentFileInfos) NewFileInfos
  { created := r.1, updated := r.2.1, deleted := deleted, current := r.2.2 }

/-- The result of `compareMv`: the two returned collections and the two
argument collections as the deletions leave them. -/
structure Mv where
  moved : FileInfos
  renamed : FileInfos
  deleted : FileInfos
  created : FileInfos

/-- The body of the inner loop of `compareMv`, for the deleted entry
`(deletedPath, deletedFile)` and the created entry `e`.  `Dir` is
`filepath.Dir`. -/
def mvInner (Dir : String → String) (deletedPath : String) (deletedFile : FileInfo) (acc : Mv)
    (e : (_ : String) × FileInfo) : Mv :=
  let createdPath := e.1
  let createdFile := e.2
  let r := sameFile deletedFile createdFile
  if r.1 || r.2 then
    let acc1 : Mv :=
      if Dir deletedPath == Dir createdFile.Path then
        { acc with renamed := acc.renamed.Put deletedPath createdFile }
      else
        { acc with moved := acc.moved.Put deletedPath createdFile }
    { acc1 with deleted := acc1.deleted.Delete deletedPath, created := acc1.created.Delete createdPath }
  else acc

/-- The body of the outer loop of `compareMv`: the inner loop ranges over the
created collection as it is when the loop starts, and has no `break`. -/
def mvOuter (Dir : String → String) (acc : Mv) (d : (_ : String) × FileInfo) : Mv :=
  acc.created.entries.foldl (mvInner Dir d.1 d.2) acc

/-- The method `compareMv`. -/
def compareMv (Dir : String → String) (deleted created : FileInfos) : Mv :=
  deleted.entries.foldl (mvOuter Dir)
    { moved := NewFileInfos, renamed := NewFileInfos, deleted := deleted, created := created }

/-- The function `filepath.Dir` on slash-separated paths that are already clean
(no doubled slash, no `.` or `..` element): the path without its last element. -/
def unixDir (path : String) : String :=
  let cs := path.data
  let pre := ((cs.reverse.dropWhile (fun c => c != '/')).dropWhile (fun c => c == '/')).reverse
  if pre == [] then (if cs.contains '/' then "/" else ".") else String.mk pre

/-! ## The store (`bbolt.go`)

A bolt database file is the association list of its top-level buckets, a
bucket the association list of its keys.  Keys and bucket names are strings
(`pathKey` is the conversion of a formatted path to bytes, `string(k)` its
inverse).  Printing and logging are not modelled. -/

/-- The bytes of a stored record. -/
abbrev Json := List Byte

/-- A bucket of a database: keys to values. -/
abbrev Bucket := AList (fun _ : String => Json)

/-- The content of a database file: its buckets by name. -/
abbrev Buckets := AList (fun _ : String => Bucket)

/-- The errors of the store. -/
inductive BoltErr where
  | openFailed
  | bucketNameRequired
  | keyRequired
  | keyTooLarge
  | valueTooLarge
  | bucketNotFound
  | commitFailed
deriving DecidableEq, Repr

/-- A call on the store, as recorded in the log of the world. -/
inductive StoreOp where
  | openDB (path : String)
  | deleteBucket (path : String) (bucket : String)
  | putSetting (path : String) (key : String)
  | batch (path : String) (bucket : String) (keys : List String)
deriving DecidableEq, Repr

/-- What lies outside the program: the database files on disk, the paths
`bolt.Open` fails on, the outcome of the coming commits (`true`: the commit
fails; when the list is used up commits succeed), the clock, and the log of
the calls made on the store so far. -/
structure World where
  disk : AList (fun _ : String => Buckets)
  locked : List String
  faults : List Bool
  now : Time
  log : List StoreOp

/-- The buckets of the database file at `path`. -/
def World.buckets (w : World) (path : String) : Buckets := (w.disk.lookup path).getD ∅

/-- The library functions the program calls: `filepath.Dir`, `filepath.Join`,
`sonic.Marshal` and `sonic.Unmarshal` on `*FileInfo` and on `*adapterSetting`
(`marshal` gives no bytes when it fails, `unmarshal` gives `none` when the
pointer stays nil), the content of the file at a path (`none` when it cannot
be opened or read), and the path `openHashingDB` computes. -/
structure Ext where
  Dir : String → String
  Join : String → String → String
  marshal : FileInfo → Json
  unmarshal : Json → Option FileInfo
  marshalSetting : adapterSetting → Json
  unmarshalSetting : Json → Option adapterSetting
  readFile : String → Option (List Byte)
  hashingDbPath : String

/-- Signed 64-bit wrap-around. -/
def wrap64 (i : Int) : Int := (i + 9223372036854775808) % 18446744073709551616 - 9223372036854775808

/-- One iteration of the loop of `stats`. -/
def statsStep (stats : fileStats) (e : (_ : String) × FileInfo) : fileStats :=
  if e.2.IsDir then
    { stats with DirCount := stats.DirCount + 1 }
  else if e.2.Mode &&& ModeSymlink != 0 then
    { stats with LinkCount := stats.LinkCount + 1 }
  else
    { stats with FileCount := stats.FileCount + 1, TotalSize := wrap64 (stats.TotalSize + e.2.Size) }

/-- The method `stats`. -/
def FileInfos.stats (fis : FileInfos) : fileStats :=
  fis.entries.foldl statsStep { FileCount := 0, DirCount := 0, LinkCount := 0, TotalSize := 0 }

/-- The constant `DBFile`. -/
def DBFile : String := ".watch.db"

/-- The method `getDbPath`. -/
def getDbPath (x : Ext) (rootPath : String) : String := x.Join rootPath DBFile

/-- The method `pathKey`. -/
def pathKey (path : String) : String := formatPath path

/-- The method `openDB`: `bolt.Open` creates the file when there is none; the
handle is the path of the file, `none` the nil handle returned with an error. -/
def openDB (w : World) (path : String) : World × Option String :=
  let w1 := { w with log := w.log ++ [StoreOp.openDB path] }
  if path ∈ w.locked then (w1, none)
  else
    match w.disk.lookup path with
    | some _ => (w1, some path)
    | none => ({ w1 with disk := w1.disk.insert path ∅ }, some path)

/-- The method `openHashingDB`. -/
def openHashingDB (x : Ext) (w : World) : World × Option String := openDB w x.hashingDbPath

/-- A call of `db.Update` or `db.Batch` with the function `fn`: the function
runs on the buckets of the file; when it returns an error nothing is written,
otherwise the result is committed unless the commit fails. -/
def World.update (w : World) (path : String) (op : StoreOp) (fn : Buckets → Except BoltErr Buckets) :
    World × Option BoltErr :=
  let w1 := { w with log := w.log ++ [op] }
  match fn (w.buckets path) with
  | Except.error err => (w1, some err)
  | Except.ok b =>
    match w1.faults with
    | true :: rest => ({ w1 with faults := rest }, some BoltErr.commitFailed)
    | false :: rest => ({ w1 with faults := rest, disk := w1.disk.insert path b }, none)
    | [] => ({ w1 with disk := w1.disk.insert path b }, none)

/-- The method `readFileInfos`. -/
def readFileInfos (x : Ext) (w : World) (db : Option String) (bucketName : String)
    (keys : List String) : FileInfos :=
  match db with
  | none => NewFileInfos
  | some path =>
    match (w.buckets path).lookup bucketName with
    | none => NewFileInfos
    | some bucket =>
      keys.foldl (fun infos key =>
        match (bucket.lookup (pathKey key)).bind x.unmarshal with
        | some info => infos.Put key info
        | none => infos) NewFileInfos

/-- The method `readAllFileInfos`. -/
def readAllFileInfos (x : Ext) (w : World) (db : Option String) (bucketName : String) : FileInfos :=
  match db with
  | none => NewFileInfos
  | some path =>
    match (w.buckets path).lookup bucketName with
    | none => NewFileInfos
    | some bucket =>
      bucket.entries.foldl (fun infos e =>
        match x.unmarshal e.2 with
        | some info => infos.Put e.1 info
        | none => infos) NewFileInfos

/-- One iteration of the loop of `putFileInfos` that splits the collection
into chunks; the state is `n`, `chunks` and `tmpInfos`. -/
def chunkStep (acc : Nat × List FileInfos × FileInfos) (e : (_ : String) × FileInfo) :
    Nat × List FileInfos × FileInfos :=
  let n := acc.1 + 1
  let tmpInfos := acc.2.2.insert e.1 e.2
  if n % 1000 == 0 then (n, acc.2.1 ++ [tmpInfos], NewFileInfos) else (n, acc.2.1, tmpInfos)

/-- The chunks `putFileInfos` writes. -/
def chunkInfos (infos : FileInfos) : List FileInfos :=
  let r := infos.entries.foldl chunkStep (0, [], NewFileInfos)
  r.2.1 ++ [r.2.2]

/-- The constant `MaxKeySize` of bolt: the largest key, in bytes. -/
def MaxKeySize : Nat := 32768

/-- The constant `MaxValueSize` of bolt, `(1 << 31) - 2`: the largest value, in
bytes. -/
def MaxValueSize : Nat := 2147483646

/-- The method `Bucket.Put` of bolt in a writable transaction: an empty key, a
key of more than `MaxKeySize` bytes and a value of more than `MaxValueSize`
bytes are refused. -/
def bucketPut (bucket : Bucket) (key : String) (value : Json) : Except BoltErr Bucket :=
  if key == "" then Except.error BoltErr.keyRequired
  else if key.utf8ByteSize > MaxKeySize then Except.error BoltErr.keyTooLarge
  else if value.length > MaxValueSize then Except.error BoltErr.valueTooLarge
  else Except.ok (bucket.insert key value)

/-- The loop of the function `putFileInfos` passes to `db.Batch`: a record
without bytes is skipped, an error of `bucket.Put` ends the loop. -/
def putChunk (x : Ext) : List ((_ : String) × FileInfo) → Bucket → Except BoltErr Bucket
  | [], bucket => Except.ok bucket
  | e :: rest, bucket =>
    let j := x.marshal e.2
    if j.length == 0 then putChunk x rest bucket
    else
      match bucketPut bucket (pathKey e.1) j with
      | Except.error err => Except.error err
      | Except.ok b => putChunk x rest b

/-- The function `putFileInfos` passes to `db.Batch` for one chunk. -/
def batchFn (x : Ext) (bucketName : String) (chunk : FileInfos) (b : Buckets) :
    Except BoltErr Buckets :=
  if bucketName == "" then Except.error BoltErr.bucketNameRequired
  else
    match putChunk x chunk.entries ((b.lookup bucketName).getD ∅) with
    | Except.error err => Except.error err
    | Except.ok bucket => Except.ok (b.insert bucketName bucket)

/-- The function `putFileInfos` passes to `db.Update` to delete the history. -/
def deleteBucketFn (bucketName : String) (b : Buckets) : Except BoltErr Buckets :=
  match b.lookup bucketName with
  | none => Except.error BoltErr.bucketNotFound
  | some _ => Except.ok (b.erase bucketName)

/-- The method `putFileInfos`: the returned list holds the errors that
`multierr.Append` combines, the empty list is the nil error. -/
def putFileInfos (x : Ext) (w : World) (db : Option String) (bucketName : String)
    (infos : FileInfos) (deleteHistory : Bool) : World × List BoltErr :=
  match db with
  | none => (w, [])
  | some path =>
    let w1 :=
      if deleteHistory then
        (w.update path (StoreOp.deleteBucket path bucketName) (deleteBucketFn bucketName)).1
      else w
    (chunkInfos infos).foldl (fun (acc : World × List BoltErr) chunk =>
      let r := acc.1.update path (StoreOp.batch path bucketName chunk.keys)
        (batchFn x bucketName chunk)
      (r.1, acc.2 ++ r.2.toList)) (w1, [])

/-- The function `putSetting` passes to `db.Update`. -/
def putSettingFn (x : Ext) (keyName : String) (setting : adapterSetting) (b : Buckets) :
    Except BoltErr Buckets :=
  let bucket := (b.lookup "setting").getD ∅
  let j := x.marshalSetting setting
  if j.length == 0 then Except.ok (b.insert "setting" bucket)
  else
    match bucketPut bucket keyName j with
    | Except.error err => Except.error err
    | Except.ok bk => Except.ok (b.insert "setting" bk)

/-- The method `putSetting`. -/
def putSetting (x : Ext) (w : World) (db : Option String) (keyName : String)
    (setting : adapterSetting) : World × Option BoltErr :=
  match db with
  | none => (w, none)
  | some path => w.update path (StoreOp.putSetting path keyName) (putSettingFn x keyName setting)

/-- The method `readSetting`. -/
def readSetting (x : Ext) (w : World) (db : Option String) (keyName : String) :
    Option adapterSetting :=
  match db with
  | none => none
  | some path =>
    match (w.buckets path).lookup "setting" with
    | none => none
    | some bucket => (bucket.lookup keyName).bind x.unmarshalSetting

/-! ## Hashing, comparing and saving (`adapter.go`, `watch.go`) -/

/-- The method `hashSum`: `none` is the nil slice returned with an error. -/
def Adapter.hashSum (x : Ext) (s : Adapter) (path : String) : Option (List Byte) :=
  match x.readFile path with
  | none => none
  | some content => some (s.hash content)

/-- The closure `putToHashingDB` of `hashing`: the state is the world and the
collection `hashingFileInfos`; `info` is `none` for the nil pointer of the
closing call. -/
def putToHashingDB (x : Ext) (db : Option String) (rootPath : String)
    (st : World × FileInfos) (path : String) (info : Option FileInfo) : World × FileInfos :=
  let hashingFileInfos :=
    match info with
    | some i => if path != "" then st.2.Put path i else st.2
    | none => st.2
  if path == "" || hashingFileInfos.Len >= 100 then
    ((putFileInfos x st.1 db (pathKey rootPath) hashingFileInfos false).1, NewFileInfos)
  else (st.1, hashingFileInfos)

/-- The state of the loop of `hashing`: the world, the collection as the
writes of the hash sums leave it, and `hashingFileInfos`. -/
structure HashState where
  world : World
  infos : FileInfos
  pending : FileInfos

/-- One iteration of the loop of `hashing`, on the entry `e` of the collection. -/
def hashStep (x : Ext) (s : Adapter) (db : Option String) (rootPath : String)
    (historyFileInfos : FileInfos) (st : HashState) (e : (_ : String) × FileInfo) : HashState :=
  let currentFile := e.2
  if !currentFile.IsDir then
    let path := currentFile.Path
    let f1 : FileInfo :=
      match historyFileInfos.Get path with
      | some historyFileInfo =>
        if historyFileInfo.Mode == currentFile.Mode &&
            historyFileInfo.ModTime == currentFile.ModTime &&
            historyFileInfo.FileSize == currentFile.FileSize then
          { currentFile with FileHashSum := historyFileInfo.FileHashSum }
        else currentFile
      | none => currentFile
    if bytesLen f1.FileHashSum == 0 then
      let f2 : FileInfo := { f1 with FileHashSum := s.hashSum x path }
      let r := putToHashingDB x db rootPath (st.world, st.pending) path (some f2)
      { world := r.1, infos := st.infos.insert e.1 f2, pending := r.2 }
    else
      { st with infos := st.infos.insert e.1 f1 }
  else st

/-- The method `hashing`: the world and the collection afterwards. -/
def Adapter.hashing (x : Ext) (s : Adapter) (w : World) (rootPath : String)
    (fileInfos : FileInfos) : World × FileInfos :=
  let stats := fileInfos.stats
  if stats.FileCount == 0 then (w, fileInfos)
  else
    let o := openHashingDB x w
    let db := o.2
    let historyFileInfos := readFileInfos x o.1 db (pathKey rootPath) fileInfos.Keys
    let st := fileInfos.entries.foldl (hashStep x s db rootPath historyFileInfos)
      { world := o.1, infos := fileInfos, pending := NewFileInfos }
    let r := putToHashingDB x db rootPath (st.world, st.pending) "" none
    (r.1, st.infos)

/-- The entries of `fis` read again after `src`, which holds pointers to the
same entries under the same keys, has been written through. -/
def FileInfos.sync (fis : FileInfos) (src : FileInfos) : FileInfos :=
  fis.entries.foldl (fun acc e => acc.insert e.1 ((src.lookup e.1).getD e.2)) NewFileInfos

/-- The result of `Compare`: the five returned collections, the current
collection as the writes of the hash sums leave it, and the world. -/
structure CompareResult where
  created : FileInfos
  updated : FileInfos
  deleted : FileInfos
  moved : FileInfos
  renamed : FileInfos
  current : FileInfos
  world : World

/-- The method `Compare`. -/
def Adapter.Compare (x : Ext) (s : Adapter) (w : World) (rootPath : String)
    (currentFiles : FileInfos) : CompareResult :=
  let cud := s.compareCUD rootPath currentFiles
  let h := s.hashing x w rootPath (NewFileInfos.Append [cud.created, cud.updated])
  let created := cud.created.sync h.2
  let updated := cud.updated.sync h.2
  let mv := compareMv x.Dir cud.deleted created
  { created := mv.created, updated := updated, deleted := mv.deleted, moved := mv.moved,
    renamed := mv.renamed, current := cud.current.sync h.2, world := h.1 }

/-- The outcome of a call that changes the adapter and the world; `panicked`
says that the call ended in a run-time panic. -/
structure Outcome where
  adapter : Adapter
  world : World
  panicked : Bool

/-- The method `Save`.  When `openDB` fails the handle is nil: the writes are
skipped and the deferred `db.Close()` dereferences the nil handle. -/
def Adapter.Save (x : Ext) (s : Adapter) (w : World) (rootPath : String) (fileInfos : FileInfos) :
    Outcome :=
  let dbPath := getDbPath x rootPath
  let o := openDB w dbPath
  let db := o.2
  let setting : adapterSetting :=
    { RootPath := rootPath, At := w.now, HashAlgorithm := s.hashAlgorithm, Stats := fileInfos.stats }
  let s1 : Adapter :=
    { s with
      settings := s.settings.insert (formatPath rootPath) (some setting),
      fileList := s.fileList.insert (formatPath rootPath) fileInfos }
  let w2 := (putSetting x o.1 db (pathKey rootPath) setting).1
  let w3 := (putFileInfos x w2 db (pathKey rootPath) fileInfos true).1
  { adapter := s1, world := w3, panicked := db.isNone }

/-- The method `load`: the adapter, the world and the returned error. -/
def Adapter.load (x : Ext) (s : Adapter) (w : World) (rootPath : String) :
    Adapter × World × Option BoltErr :=
  let o := openDB w (getDbPath x rootPath)
  match o.2 with
  | none => (s, o.1, some BoltErr.openFailed)
  | some db =>
    ({ s with
        settings := s.settings.insert (formatPath rootPath)
          (readSetting x o.1 (some db) (pathKey rootPath)),
        fileList := s.fileList.insert (formatPath rootPath)
          (readAllFileInfos x o.1 (some db) (pathKey rootPath)) },
      o.1, none)

/-- The body of the second loop of `Watch` for the root `rootPath` and its
listing `infos`. -/
def watchRoot (x : Ext) (s : Adapter) (w : World) (rootPath : String) (infos : FileInfos) :
    Outcome :=
  let r := s.Compare x w rootPath infos
  if r.deleted.Len > 0 || r.created.Len > 0 || r.updated.Len > 0 || r.moved.Len > 0 ||
      r.renamed.Len > 0 then
    s.Save x r.world rootPath r.current
  else
    { adapter := s, world := r.world, panicked := false }

/-- The second loop of `Watch` over `fileGroup`, the listings of the roots; a
panic ends the run. -/
def watchLoop (x : Ext) : List ((_ : String) × FileInfos) → Adapter → World → Outcome
  | [], s, w => { adapter := s, world := w, panicked := false }
  | g :: rest, s, w =>
    let r := watchRoot x s w g.1 g.2
    if r.panicked then r else watchLoop x rest r.adapter r.world

/-- The method `LoadAll`: the returned list holds the errors that
`multierr.Append` combines, the empty list is the nil error. -/
def Adapter.LoadAll (x : Ext) (s : Adapter) (w : World) (rootPaths : List String) :
    Adapter × World × List BoltErr :=
  rootPaths.foldl (fun (acc : Adapter × World × List BoltErr) rootPath =>
    let r := acc.1.load x acc.2.1 rootPath
    (r.1, r.2.1, acc.2.2 ++ r.2.2.toList)) (s, w, [])

/-- The results of the calls of `db.Batch` that the second loop of
`putFileInfos` makes for the given chunks, one per chunk in the order of the
chunks, starting in the world `w`: `none` when the write of the chunk
succeeded, its error otherwise. -/
def batchOutcomes (x : Ext) (path bucketName : String) :
    List FileInfos → World → List (Option BoltErr)
  | [], _ => []
  | chunk :: rest, w =>
    let r := w.update path (StoreOp.batch path bucketName chunk.keys) (batchFn x bucketName chunk)
    r.2 :: batchOutcomes x path bucketName rest r.1

/-! ## Invariants used in the proofs -/

/-- The invariant of the loops of `compareMv`, relative to the keys `D0` of the
deleted argument: both argument collections only shrink, every created entry is
stored under its path, and whatever has been reported is gone from them. -/
def MvInv (D0 : FileInfos) (C0 : FileInfos) (acc : Mv) : Prop :=
  (∀ k, k ∈ acc.created → k ∈ C0) ∧
  (∀ k v, acc.created.lookup k = some v → v.FilePath = k) ∧
  (∀ k, k ∈ acc.deleted → k ∈ D0) ∧
  (∀ k, (k ∈ acc.moved ∨ k ∈ acc.renamed) → k ∈ D0 ∧ k ∉ acc.deleted) ∧
  (∀ k v, (acc.moved.lookup k = some v ∨ acc.renamed.lookup k = some v) →
    v.FilePath ∉ acc.created)

/-- The record of the entry `v` under the key `k` is one that `putFileInfos`
writes: the entry serialises to some bytes, and bolt accepts the key and the
value. -/
def Storable (x : Ext) (k : String) (v : FileInfo) : Prop :=
  x.marshal v ≠ [] ∧ k ≠ "" ∧ k.utf8ByteSize ≤ MaxKeySize ∧ (x.marshal v).length ≤ MaxValueSize

/-- No commit is going to fail. -/
def World.NoFault (w : World) : Prop := ∀ f ∈ w.faults, f = false

/-- The bucket `bucketName` of the file at `path`, read as a function of the key. -/
def World.valueAt (w : World) (path bucketName key : String) : Option Json :=
  (((w.buckets path).lookup bucketName).getD ∅).lookup key

/-! ## Example inputs -/

/-- An adapter that has loaded nothing; its digest is the length of the
content followed by the content. -/
def exAdapter : Adapter :=
  { hashAlgorithm := "md5", hash := fun content => Fin.ofNat content.length :: content,
    fileList := ∅, settings := ∅ }

/-- A regular file `a.txt` of size 10. -/
def exFileA : FileInfo :=
  { FileName := "a.txt", FilePath := "/r/a.txt", FileSize := 10, FileMode := 420,
    FileHashSum := some [72, 1], FileMtime := ⟨100, 0⟩, sys := none }

/-- A regular file `b.txt` with the size and hash sum of `a.txt`. -/
def exFileB : FileInfo :=
  { FileName := "b.txt", FilePath := "/r/b.txt", FileSize := 10, FileMode := 420,
    FileHashSum := some [72, 1], FileMtime := ⟨150, 0⟩, sys := none }

/-- A regular file `c.txt` with the size and hash sum of `a.txt`. -/
def exFileC : FileInfo :=
  { FileName := "c.txt", FilePath := "/r/c.txt", FileSize := 10, FileMode := 420,
    FileHashSum := some [72, 1], FileMtime := ⟨200, 0⟩, sys := none }

/-- The listing of a root that holds the three files above. -/
def exThreeFiles : FileInfos :=
  ((AList.singleton "/r/a.txt" exFileA).insert "/r/b.txt" exFileB).insert "/r/c.txt" exFileC

/-- The directory `/r/d` as `load` reads it back from the store: sonic gives the
modification time another location than a listing does. -/
def exDirStored : FileInfo :=
  { FileName := "d", FilePath := "/r/d", FileSize := 4096, FileMode := 2147484141,
    FileHashSum := none, FileMtime := ⟨500, 1⟩, sys := none }

/-- The same directory as a listing gives it after it has been moved to `/q/d`. -/
def exDirListed : FileInfo :=
  { FileName := "d", FilePath := "/q/d", FileSize := 4096, FileMode := 2147484141,
    FileHashSum := none, FileMtime := ⟨500, 0⟩, sys := some ⟨1, 42⟩ }

/-- A symbolic link of size 5 that has no hash sum. -/
def exLink : FileInfo :=
  { FileName := "link", FilePath := "/r/link", FileSize := 5, FileMode := 134218239,
    FileHashSum := none, FileMtime := ⟨300, 0⟩, sys := none }

/-- The file `a.txt` as a listing gives it, before hashing. -/
def exFileNew : FileInfo := { exFileA with FileHashSum := none }

/-- A serialisation that tells the three example files apart by their
modification time. -/
def exMarshal (fi : FileInfo) : Json := [Fin.ofNat fi.FileMtime.instant.toNat]

/-- The inverse of `exMarshal` on the three example files; what is read back
has no `os.FileInfo`. -/
def exUnmarshal (j : Json) : Option FileInfo :=
  if j = [100] then some exFileA
  else if j = [150] then some exFileB
  else if j = [200] then some exFileC
  else none

/-- Library functions for the examples: every file can be read and holds the
single byte 7. -/
def exExt : Ext :=
  { Dir := unixDir, Join := fun a b => a ++ "/" ++ b, marshal := exMarshal,
    unmarshal := exUnmarshal, marshalSetting := fun _ => [1], unmarshalSetting := fun _ => none,
    readFile := fun _ => some [7], hashingDbPath := "/bin/data/hashing.db" }

/-- A world without database files in which nothing fails. -/
def exWorld : World :=
  { disk := ∅, locked := [], faults := [], now := ⟨1000, 0⟩, log := [] }

/-- A world in which the snapshot store of the root `/r` already holds a record
for `/r/old.txt`. -/
def exWorldOld : World :=
  { exWorld with
    disk := AList.singleton "/r/.watch.db"
      (AList.singleton "/r" (AList.singleton "/r/old.txt" [100])) }

/-- A world in which the snapshot store of the root `/r` cannot be opened. -/
def exWorldLocked : World := { exWorld with locked := ["/r/.watch.db"] }

/-- An adapter whose last known collection of the root `/r` is `exThreeFiles`. -/
def exLoaded : Adapter := { exAdapter with fileList := AList.singleton "/r" exThreeFiles }

/-! ## Theorems: `compareCUD` -/

/-- The classification of one path by the first loop of `compareCUD`. -/
theorem cudStep_lookup (old : FileInfos) (acc : FileInfos × FileInfos × FileInfos)
    (e : (_ : String) × FileInfo) (p : String) :
    ((cudStep old acc e).1.lookup p =
        if p = e.1 then (match old.lookup p with | none => some e.2 | some _ => acc.1.lookup p)
        else acc.1.lookup p) ∧
    ((cudStep old acc e).2.1.lookup p =
        if p = e.1 then
          (match old.lookup p with
            | none => acc.2.1.lookup p
            | some o =>
              if (!e.2.FileMtime.Equal o.FileMtime || e.2.FileSize != o.FileSize) = true then some e.2
              else acc.2.1.lookup p)
        else acc.2.1.lookup p) ∧
    ((cudStep old acc e).2.2.lookup p =
        if p = e.1 then
          (match old.lookup p with
            | none => acc.2.2.lookup p
            | some o =>
              if (!e.2.FileMtime.Equal o.FileMtime || e.2.FileSize != o.FileSize) = true then
                acc.2.2.lookup p
              else some { e.2 with FileHashSum := o.FileHashSum })
        else acc.2.2.lookup p) := by
  obtain ⟨c, u, cur⟩ := acc
  obtain ⟨k, v⟩ := e
  by_cases hp : p = k
  · subst hp
    simp only [cudStep, FileInfos.Put, formatPath, if_true]
    cases ho : old.lookup p with
    | none => simp [AList.lookup_insert]
    | some o =>
      by_cases hc : (!v.FileMtime.Equal o.FileMtime || v.FileSize != o.FileSize) = true
      · simp [hc, AList.lookup_insert]
      · simp [hc, AList.lookup_insert]
  · simp only [cudStep, FileInfos.Put, formatPath, if_neg hp]
    cases ho : old.lookup k with
    | none => simp [AList.lookup_insert_ne hp]
    | some o =>
      by_cases hc : (!v.FileMtime.Equal o.FileMtime || v.FileSize != o.FileSize) = true
      · simp [hc, AList.lookup_insert_ne hp]
      · simp [hc, AList.lookup_insert_ne hp]

theorem cud_fold_lookup (old : FileInfos) (l : List ((_ : String) × FileInfo)) (nd : l.NodupKeys)
    (acc : FileInfos × FileInfos × FileInfos) (p : String) :
    ((l.foldl (cudStep old) acc).1.lookup p =
        match l.dlookup p with
        | none => acc.1.lookup p
        | some c => (match old.lookup p with | none => some c | some _ => acc.1.lookup p)) ∧
    ((l.foldl (cudStep old) acc).2.1.lookup p =
        match l.dlookup p with
        | none => acc.2.1.lookup p
        | some c =>
          (match old.lookup p with
            | none => acc.2.1.lookup p
            | some o =>
              if (!c.FileMtime.Equal o.FileMtime || c.FileSize != o.FileSize) = true then some c
              else acc.2.1.lookup p)) ∧
    ((l.foldl (cudStep old) acc).2.2.lookup p =
        match l.dlookup p with
        | none => acc.2.2.lookup p
        | some c =>
          (match old.lookup p with
            | none => acc.2.2.lookup p
            | some o =>
              if (!c.FileMtime.Equal o.FileMtime || c.FileSize != o.FileSize) = true then
                acc.2.2.lookup p
              else some { c with FileHashSum := o.FileHashSum })) := by
  induction l generalizing acc with
  | nil => simp
  | cons e l ih =>
    have hnd := List.nodupKeys_cons.1 nd
    have h := ih hnd.2 (cudStep old acc e)
    have hs := cudStep_lookup old acc e p
    simp only [List.foldl_cons]
    by_cases hp : p = e.1
    · have hnone : l.dlookup p = none := by
        rw [List.dlookup_eq_none]; rw [hp]; exact hnd.1
      have hsome : List.dlookup p (e :: l) = some e.2 := by
        subst hp; exact List.dlookup_cons_eq l e.1 e.2
      rw [hnone] at h
      rw [hsome]
      simp only [if_pos hp] at hs
      exact ⟨h.1.trans hs.1, h.2.1.trans hs.2.1, h.2.2.trans hs.2.2⟩
    · have hcons : List.dlookup p (e :: l) = List.dlookup p l := List.dlookup_cons_ne l e hp
      rw [hcons]
      simp only [if_neg hp] at hs
      rw [hs.1, hs.2.1, hs.2.2] at h
      exact h

theorem del_fold_lookup (cur : FileInfos) (l : List ((_ : String) × FileInfo)) (nd : l.NodupKeys)
    (acc : FileInfos) (p : String) :
    (l.foldl (delStep cur) acc).lookup p =
      match l.dlookup p with
      | none => acc.lookup p
      | some o => (match cur.lookup p with | none => some o | some _ => acc.lookup p) := by
  induction l generalizing acc with
  | nil => simp
  | cons e l ih =>
    have hnd := List.nodupKeys_cons.1 nd
    have h := ih hnd.2 (delStep cur acc e)
    simp only [List.foldl_cons]
    rw [h]
    by_cases hp : p = e.1
    · have hnone : l.dlookup p = none := by
        rw [List.dlookup_eq_none]; rw [hp]; exact hnd.1
      have hsome : List.dlookup p (e :: l) = some e.2 := by
        subst hp; exact List.dlookup_cons_eq l e.1 e.2
      rw [hnone, hsome]
      subst hp
      simp only [delStep, FileInfos.Put, formatPath]
      cases hc : cur.lookup e.1 with
      | none => simp [AList.lookup_insert]
      | some c => simp
    · have hcons : List.dlookup p (e :: l) = List.dlookup p l := List.dlookup_cons_ne l e hp
      rw [hcons]
      have hacc : (delStep cur acc e).lookup p = acc.lookup p := by
        simp only [delStep, FileInfos.Put, formatPath]
        cases hc : cur.lookup e.1 with
        | none => simp [AList.lookup_insert_ne hp]
        | some c => simp
      rw [hacc]

theorem oldFileInfos_eq (s : Adapter) (rootPath : String) :
    s.oldFileInfos rootPath = (s.fileList.lookup (formatPath rootPath)).getD ∅ := by
  unfold Adapter.oldFileInfos NewFileInfos
  cases s.fileList.lookup (formatPath rootPath) <;> rfl

theorem compareCUD_created_lookup (s : Adapter) (rootPath : String) (cur : FileInfos) (p : String) :
    (s.compareCUD rootPath cur).created.lookup p =
      match cur.lookup p with
      | none => none
      | some c => (match (s.oldFileInfos rootPath).lookup p with | none => some c | some _ => none) := by
  have h := (cud_fold_lookup (s.oldFileInfos rootPath) cur.entries cur.nodupKeys
    (NewFileInfos, NewFileInfos, cur) p).1
  simpa [Adapter.compareCUD, AList.lookup, NewFileInfos] using h

theorem compareCUD_updated_lookup (s : Adapter) (rootPath : String) (cur : FileInfos) (p : String) :
    (s.compareCUD rootPath cur).updated.lookup p =
      match cur.lookup p with
      | none => none
      | some c =>
        (match (s.oldFileInfos rootPath).lookup p with
          | none => none
          | some o =>
            if (!c.FileMtime.Equal o.FileMtime || c.FileSize != o.FileSize) = true then some c
            else none) := by
  have h := (cud_fold_lookup (s.oldFileInfos rootPath) cur.entries cur.nodupKeys
    (NewFileInfos, NewFileInfos, cur) p).2.1
  simpa [Adapter.compareCUD, AList.lookup, NewFileInfos] using h

theorem compareCUD_current_lookup (s : Adapter) (rootPath : String) (cur : FileInfos) (p : String) :
    (s.compareCUD rootPath cur).current.lookup p =
      match cur.lookup p with
      | none => none
      | some c =>
        (match (s.oldFileInfos rootPath).lookup p with
          | none => some c
          | some o =>
            if (!c.FileMtime.Equal o.FileMtime || c.FileSize != o.FileSize) = true then some c
            else some { c with FileHashSum := o.FileHashSum }) := by
  have h := (cud_fold_lookup (s.oldFileInfos rootPath) cur.entries cur.nodupKeys
    (NewFileInfos, NewFileInfos, cur) p).2.2
  have h2 : (s.compareCUD rootPath cur).current.lookup p = _ := h
  rw [h2]
  show (match cur.lookup p with | none => cur.lookup p | some c => _) = _
  cases hc : cur.lookup p with
  | none => rfl
  | some c =>
    simp only

theorem compareCUD_deleted_lookup (s : Adapter) (rootPath : String) (cur : FileInfos) (p : String) :
    (s.compareCUD rootPath cur).deleted.lookup p =
      match (s.oldFileInfos rootPath).lookup p with
      | none => none
      | some o => (match cur.lookup p with | none => some o | some _ => none) := by
  have h := del_fold_lookup cur (s.oldFileInfos rootPath).entries (s.oldFileInfos rootPath).nodupKeys
    NewFileInfos p
  simpa [Adapter.compareCUD, AList.lookup, NewFileInfos] using h

theorem alist_mem_iff_lookup {β : Type} (m : AList (fun _ : String => β)) (p : String) :
    p ∈ m ↔ ∃ v, m.lookup p = some v := by
  rw [← AList.lookup_isSome, Option.isSome_iff_exists]

theorem alist_entries_nil {β : Type} (m : AList (fun _ : String => β))
    (h : ∀ p, m.lookup p = none) : m.entries = [] := by
  cases hm : m.entries with
  | nil => rfl
  | cons e l =>
    exfalso
    have h1 := h e.1
    rw [AList.lookup_eq_none, AList.mem_keys, AList.keys, hm] at h1
    exact h1 (by simp [List.keys])

/-- C1: `compareCUD` returns as created exactly the current entries whose path
is not a key of the previous collection of the root, as updated exactly the
current entries whose path is a key of previous and whose modification time is
not `Equal` to, or whose size differs from, the previous entry's, and as
deleted exactly the previous entries whose path is not a key of current. -/
theorem compareCUD_classifies (s : Adapter) (rootPath : String) (cur : FileInfos) :
    (∀ p fi, (s.compareCUD rootPath cur).created.lookup p = some fi ↔
      (cur.lookup p = some fi ∧
        ((s.fileList.lookup (formatPath rootPath)).getD ∅).lookup p = none)) ∧
    (∀ p fi, (s.compareCUD rootPath cur).updated.lookup p = some fi ↔
      (cur.lookup p = some fi ∧
        ∃ o, ((s.fileList.lookup (formatPath rootPath)).getD ∅).lookup p = some o ∧
          (fi.FileMtime.Equal o.FileMtime = false ∨ fi.FileSize ≠ o.FileSize))) ∧
    (∀ p fi, (s.compareCUD rootPath cur).deleted.lookup p = some fi ↔
      (((s.fileList.lookup (formatPath rootPath)).getD ∅).lookup p = some fi ∧
        cur.lookup p = none)) := by
  rw [← oldFileInfos_eq]
  refine ⟨fun p fi => ?_, fun p fi => ?_, fun p fi => ?_⟩
  · rw [compareCUD_created_lookup]
    cases cur.lookup p with
    | none => simp
    | some c => cases (s.oldFileInfos rootPath).lookup p <;> simp
  · rw [compareCUD_updated_lookup]
    cases cur.lookup p with
    | none => simp
    | some c =>
      cases (s.oldFileInfos rootPath).lookup p with
      | none => simp
      | some o =>
        by_cases hc : (!c.FileMtime.Equal o.FileMtime || c.FileSize != o.FileSize) = true
        · simp only [if_pos hc, Option.some.injEq]
          constructor
          · rintro rfl
            refine ⟨rfl, o, rfl, ?_⟩
            simpa using hc
          · rintro ⟨h, _⟩; exact h
        · simp only [if_neg hc, Option.some.injEq]
          constructor
          · intro h; cases h
          · rintro ⟨rfl, o2, rfl, h⟩
            exact absurd (by simpa using h) hc
  · rw [compareCUD_deleted_lookup]
    cases (s.oldFileInfos rootPath).lookup p with
    | none => simp
    | some o => cases cur.lookup p <;> simp

/-- C2: the key sets of created, updated and deleted are pairwise disjoint;
every path of current is in exactly one of created, updated, or unchanged (a
key of previous with `Equal` modification time and equal size, in neither
set); every path only in previous is in deleted; and when the root has no
prior state (nothing stored for it, or an empty collection), created holds
every current entry and updated and deleted are empty. -/
theorem compareCUD_partition (s : Adapter) (rootPath : String) (cur : FileInfos) :
    (∀ p, ¬ (p ∈ (s.compareCUD rootPath cur).created ∧ p ∈ (s.compareCUD rootPath cur).updated)) ∧
    (∀ p, ¬ (p ∈ (s.compareCUD rootPath cur).created ∧ p ∈ (s.compareCUD rootPath cur).deleted)) ∧
    (∀ p, ¬ (p ∈ (s.compareCUD rootPath cur).updated ∧ p ∈ (s.compareCUD rootPath cur).deleted)) ∧
    (∀ p, p ∈ cur →
      ((p ∈ (s.compareCUD rootPath cur).created ∧ p ∉ (s.compareCUD rootPath cur).updated ∧
          ¬ ∃ c o, cur.lookup p = some c ∧
            ((s.fileList.lookup (formatPath rootPath)).getD ∅).lookup p = some o ∧
            c.FileMtime.Equal o.FileMtime = true ∧ c.FileSize = o.FileSize) ∨
       (p ∉ (s.compareCUD rootPath cur).created ∧ p ∈ (s.compareCUD rootPath cur).updated ∧
          ¬ ∃ c o, cur.lookup p = some c ∧
            ((s.fileList.lookup (formatPath rootPath)).getD ∅).lookup p = some o ∧
            c.FileMtime.Equal o.FileMtime = true ∧ c.FileSize = o.FileSize) ∨
       (p ∉ (s.compareCUD rootPath cur).created ∧ p ∉ (s.compareCUD rootPath cur).updated ∧
          ∃ c o, cur.lookup p = some c ∧
            ((s.fileList.lookup (formatPath rootPath)).getD ∅).lookup p = some o ∧
            c.FileMtime.Equal o.FileMtime = true ∧ c.FileSize = o.FileSize))) ∧
    (∀ p, p ∈ (s.fileList.lookup (formatPath rootPath)).getD ∅ → p ∉ cur →
      p ∈ (s.compareCUD rootPath cur).deleted) ∧
    ((s.fileList.lookup (formatPath rootPath) = none ∨
        s.fileList.lookup (formatPath rootPath) = some ∅) →
      (∀ p, (s.compareCUD rootPath cur).created.lookup p = cur.lookup p) ∧
      (s.compareCUD rootPath cur).updated.entries = [] ∧
      (s.compareCUD rootPath cur).deleted.entries = []) := by
  rw [← oldFileInfos_eq]
  simp only [alist_mem_iff_lookup, AList.lookup_eq_none.symm, compareCUD_created_lookup,
    compareCUD_updated_lookup, compareCUD_deleted_lookup]
  refine ⟨fun p => ?_, fun p => ?_, fun p => ?_, fun p => ?_, fun p => ?_, fun h => ?_⟩
  · cases cur.lookup p with
    | none => simp
    | some c => cases (s.oldFileInfos rootPath).lookup p <;> simp
  · cases cur.lookup p with
    | none => simp
    | some c => cases (s.oldFileInfos rootPath).lookup p <;> simp
  · cases cur.lookup p with
    | none => simp
    | some c => cases (s.oldFileInfos rootPath).lookup p <;> simp
  · cases cur.lookup p with
    | none => simp
    | some c =>
      cases (s.oldFileInfos rootPath).lookup p with
      | none => simp
      | some o =>
        by_cases hc : (!c.FileMtime.Equal o.FileMtime || c.FileSize != o.FileSize) = true
        · have hc1 : c.FileMtime.Equal o.FileMtime = false ∨ ¬ c.FileSize = o.FileSize := by
            simpa using hc
          have hc2 : c.FileMtime.Equal o.FileMtime = true → ¬ c.FileSize = o.FileSize := by
            intro ht; rcases hc1 with h | h
            · rw [ht] at h; cases h
            · exact h
          simp only [if_pos hc]
          simp
          exact hc2
        · have hc2 : c.FileMtime.Equal o.FileMtime = true ∧ c.FileSize = o.FileSize := by
            simpa using hc
          simp [hc, hc2]
  · cases cur.lookup p with
    | none => cases (s.oldFileInfos rootPath).lookup p <;> simp
    | some c => simp
  · have hold : s.oldFileInfos rootPath = ∅ := by
      rcases h with h | h <;> (rw [oldFileInfos_eq, h]; rfl)
    refine ⟨fun p => ?_, alist_entries_nil _ (fun p => ?_), alist_entries_nil _ (fun p => ?_)⟩
    · rw [hold]; cases cur.lookup p <;> simp
    · rw [compareCUD_updated_lookup, hold]; cases cur.lookup p <;> simp
    · rw [compareCUD_deleted_lookup, hold]; simp

/-- C3: after `compareCUD` a current entry whose path is a key of previous
with `Equal` modification time and equal size is the same entry with the
previous entry's hash sum; every other current entry, in particular every
created and every updated one, is left as it was, no path is added or
removed, and the adapter (hence the previous collection) is only read. -/
theorem compareCUD_frame (s : Adapter) (rootPath : String) (cur : FileInfos) :
    (∀ p c o, cur.lookup p = some c →
      ((s.fileList.lookup (formatPath rootPath)).getD ∅).lookup p = some o →
      c.FileMtime.Equal o.FileMtime = true → c.FileSize = o.FileSize →
      (s.compareCUD rootPath cur).current.lookup p = some { c with FileHashSum := o.FileHashSum }) ∧
    (∀ p c, cur.lookup p = some c →
      (((s.fileList.lookup (formatPath rootPath)).getD ∅).lookup p = none ∨
        ∃ o, ((s.fileList.lookup (formatPath rootPath)).getD ∅).lookup p = some o ∧
          (c.FileMtime.Equal o.FileMtime = false ∨ c.FileSize ≠ o.FileSize)) →
      (s.compareCUD rootPath cur).current.lookup p = some c) ∧
    (∀ p, cur.lookup p = none → (s.compareCUD rootPath cur).current.lookup p = none) ∧
    (∀ p fi, (s.compareCUD rootPath cur).created.lookup p = some fi →
      cur.lookup p = some fi ∧ (s.compareCUD rootPath cur).current.lookup p = some fi) ∧
    (∀ p fi, (s.compareCUD rootPath cur).updated.lookup p = some fi →
      cur.lookup p = some fi ∧ (s.compareCUD rootPath cur).current.lookup p = some fi) := by
  rw [← oldFileInfos_eq]
  simp only [compareCUD_created_lookup, compareCUD_updated_lookup, compareCUD_current_lookup]
  refine ⟨fun p c o hc ho ht hs => ?_, fun p c hc h => ?_, fun p hc => ?_, fun p fi => ?_,
    fun p fi => ?_⟩
  · simp [hc, ho, ht, hs]
  · rcases h with h | ⟨o, ho, h⟩
    · simp [hc, h]
    · have hcond : (!c.FileMtime.Equal o.FileMtime || c.FileSize != o.FileSize) = true := by
        rcases h with h | h <;> simp [h]
      simp [hc, ho, hcond]
  · simp [hc]
  · cases cur.lookup p with
    | none => simp
    | some c => cases (s.oldFileInfos rootPath).lookup p <;> simp
  · cases cur.lookup p with
    | none => simp
    | some c =>
      cases (s.oldFileInfos rootPath).lookup p with
      | none => simp
      | some o =>
        by_cases hc : (!c.FileMtime.Equal o.FileMtime || c.FileSize != o.FileSize) = true
        · simp [hc]
        · simp [hc]

/-! ## Theorems: `sameFile` and `compareMv` -/

theorem sameFile_snd_iff (a b : FileInfo) :
    (sameFile a b).2 = true ↔
      ((a.IsDir = false ∧ b.IsDir = false ∧ a.FileSize = b.FileSize ∧
          a.FileHashSum ≠ none ∧ b.FileHashSum ≠ none ∧ a.FileHashSum = b.FileHashSum) ∨
        (a.IsDir = true ∧ b.IsDir = true ∧ a.FileMtime = b.FileMtime ∧
          a.FileSize = b.FileSize ∧ a.FileMode = b.FileMode)) := by
  unfold sameFile
  simp only [FileInfo.Size, FileInfo.HashSum, FileInfo.ModTime, FileInfo.Mode]
  cases ha : a.IsDir <;> cases hb : b.IsDir
  · cases hha : a.FileHashSum <;> cases hhb : b.FileHashSum <;>
      simp [bytesEqual, FileInfo.Mode] at *
  · simp
  · simp
  · simp [and_assoc]

theorem compareMv_pair (Dir : String → String) (dk ck : String) (d c : FileInfo)
    (hm : ((sameFile d c).1 || (sameFile d c).2) = true) :
    compareMv Dir (AList.singleton dk d) (AList.singleton ck c) =
      if Dir dk = Dir c.FilePath then
        { moved := ∅, renamed := AList.singleton dk c, deleted := (AList.singleton dk d).erase dk,
          created := (AList.singleton ck c).erase ck }
      else
        { moved := AList.singleton dk c, renamed := ∅, deleted := (AList.singleton dk d).erase dk,
          created := (AList.singleton ck c).erase ck } := by
  simp only [compareMv, mvOuter, mvInner, AList.singleton_entries, List.foldl_cons, List.foldl_nil,
    hm, if_true, NewFileInfos, FileInfos.Put, FileInfos.Delete, formatPath, FileInfo.Path,
    AList.insert_empty, beq_iff_eq]
  split <;> rfl

theorem singleton_erase_entries {β : Type} (k : String) (v : β) :
    ((AList.singleton k v : AList (fun _ : String => β)).erase k).entries = [] := by
  simp [AList.erase, AList.singleton, List.kerase]

/-- C4: one deleted entry and one created entry (each stored under its path),
non-directories of equal size with equal non-empty hash sums, are reported as
a rename when the parent directories are equal and as a move when they
differ, and both argument collections are empty afterwards. -/
theorem compareMv_single_pair (Dir : String → String) (d c : FileInfo)
    (hd : d.IsDir = false) (hc : c.IsDir = false) (hsize : d.FileSize = c.FileSize)
    (hhash : d.FileHashSum = c.FileHashSum) (hne : bytesLen d.FileHashSum ≠ 0) :
    (Dir d.FilePath = Dir c.FilePath →
      (compareMv Dir (AList.singleton d.FilePath d) (AList.singleton c.FilePath c)).renamed.entries
          = [⟨d.FilePath, c⟩] ∧
      (compareMv Dir (AList.singleton d.FilePath d) (AList.singleton c.FilePath c)).moved.entries
          = [] ∧
      (compareMv Dir (AList.singleton d.FilePath d) (AList.singleton c.FilePath c)).deleted.entries
          = [] ∧
      (compareMv Dir (AList.singleton d.FilePath d) (AList.singleton c.FilePath c)).created.entries
          = []) ∧
    (Dir d.FilePath ≠ Dir c.FilePath →
      (compareMv Dir (AList.singleton d.FilePath d) (AList.singleton c.FilePath c)).moved.entries
          = [⟨d.FilePath, c⟩] ∧
      (compareMv Dir (AList.singleton d.FilePath d) (AList.singleton c.FilePath c)).renamed.entries
          = [] ∧
      (compareMv Dir (AList.singleton d.FilePath d) (AList.singleton c.FilePath c)).deleted.entries
          = [] ∧
      (compareMv Dir (AList.singleton d.FilePath d) (AList.singleton c.FilePath c)).created.entries
          = []) := by
  have hnone : d.FileHashSum ≠ none := by
    intro h; rw [h] at hne; exact hne rfl
  have hsame : (sameFile d c).2 = true :=
    (sameFile_snd_iff d c).2 (Or.inl ⟨hd, hc, hsize, hnone, hhash ▸ hnone, hhash⟩)
  have hm : ((sameFile d c).1 || (sameFile d c).2) = true := by rw [hsame]; simp
  rw [compareMv_pair Dir d.FilePath c.FilePath d c hm]
  constructor
  · intro h
    rw [if_pos h]
    exact ⟨rfl, rfl, singleton_erase_entries _ _, singleton_erase_entries _ _⟩
  · intro h
    rw [if_neg h]
    exact ⟨rfl, rfl, singleton_erase_entries _ _, singleton_erase_entries _ _⟩

theorem compareMv_single_pair_witness :
    (compareMv unixDir (AList.singleton exFileA.FilePath exFileA)
        (AList.singleton exFileC.FilePath exFileC)).renamed.entries = [⟨"/r/a.txt", exFileC⟩] ∧
    (compareMv unixDir (AList.singleton exFileA.FilePath exFileA)
        (AList.singleton exFileC.FilePath exFileC)).moved.entries = [] ∧
    (compareMv unixDir (AList.singleton exFileA.FilePath exFileA)
        (AList.singleton exFileC.FilePath exFileC)).deleted.entries = [] ∧
    (compareMv unixDir (AList.singleton exFileA.FilePath exFileA)
        (AList.singleton exFileC.FilePath exFileC)).created.entries = [] :=
  (compareMv_single_pair unixDir exFileA exFileC (by decide) (by decide) (by decide) (by decide)
    (by decide)).1 (by decide)

/-- What `sameFile` reports as `sameContent` when every hash sum is nil or
non-empty, as the program produces them: for two non-directories it holds
exactly when the sizes are equal and both hash sums are non-empty and
byte-equal; it fails when exactly one entry is a directory and when a
non-directory has an empty hash sum; for two directories it holds exactly when
size and mode are equal and the modification times are equal under `==`,
which is more than being the same instant. -/
theorem sameFile_sameContent_cases (a b : FileInfo)
    (ha : a.FileHashSum = none ∨ bytesLen a.FileHashSum ≠ 0)
    (hb : b.FileHashSum = none ∨ bytesLen b.FileHashSum ≠ 0) :
    (a.IsDir = false → b.IsDir = false →
      ((sameFile a b).2 = true ↔
        (a.FileSize = b.FileSize ∧ bytesLen a.FileHashSum ≠ 0 ∧ bytesLen b.FileHashSum ≠ 0 ∧
          bytesEqual a.FileHashSum b.FileHashSum = true))) ∧
    (a.IsDir ≠ b.IsDir → (sameFile a b).2 = false) ∧
    (a.IsDir = false → b.IsDir = false →
      (bytesLen a.FileHashSum = 0 ∨ bytesLen b.FileHashSum = 0) → (sameFile a b).2 = false) ∧
    (a.IsDir = true → b.IsDir = true →
      ((sameFile a b).2 = true ↔
        (a.FileMtime = b.FileMtime ∧ a.FileSize = b.FileSize ∧ a.FileMode = b.FileMode))) ∧
    (a.IsDir = true → b.IsDir = true → (sameFile a b).2 = true →
      a.FileMtime.Equal b.FileMtime = true) := by
  have hlen : ∀ c : FileInfo, (c.FileHashSum = none ∨ bytesLen c.FileHashSum ≠ 0) →
      (c.FileHashSum ≠ none ↔ bytesLen c.FileHashSum ≠ 0) := by
    intro c hc
    constructor
    · intro h
      rcases hc with hc | hc
      · exact absurd hc h
      · exact hc
    · intro h hn
      rw [hn] at h
      exact h rfl
  have hbe : a.FileHashSum ≠ none → b.FileHashSum ≠ none →
      (bytesEqual a.FileHashSum b.FileHashSum = true ↔ a.FileHashSum = b.FileHashSum) := by
    intro h1 h2
    cases hx : a.FileHashSum with
    | none => exact absurd hx h1
    | some x =>
      cases hy : b.FileHashSum with
      | none => exact absurd hy h2
      | some y => simp [bytesEqual]
  refine ⟨?_, ?_, ?_, ?_, ?_⟩
  · intro hda hdb
    rw [sameFile_snd_iff]
    constructor
    · rintro (⟨_, _, h3, h4, h5, h6⟩ | ⟨h1, _⟩)
      · exact ⟨h3, (hlen a ha).1 h4, (hlen b hb).1 h5, (hbe h4 h5).2 h6⟩
      · rw [hda] at h1; cases h1
    · rintro ⟨h3, h4, h5, h6⟩
      have h4n := (hlen a ha).2 h4
      have h5n := (hlen b hb).2 h5
      exact Or.inl ⟨hda, hdb, h3, h4n, h5n, (hbe h4n h5n).1 h6⟩
  · intro h
    cases hs : (sameFile a b).2 with
    | false => rfl
    | true =>
      exfalso
      rcases (sameFile_snd_iff a b).1 hs with ⟨h1, h2, _⟩ | ⟨h1, h2, _⟩ <;> exact h (h1.trans h2.symm)
  · intro hda hdb h
    cases hs : (sameFile a b).2 with
    | false => rfl
    | true =>
      exfalso
      rcases (sameFile_snd_iff a b).1 hs with ⟨_, _, _, h4, h5, _⟩ | ⟨h1, _⟩
      · rcases h with h | h
        · exact (hlen a ha).1 h4 h
        · exact (hlen b hb).1 h5 h
      · rw [hda] at h1; cases h1
  · intro hda hdb
    rw [sameFile_snd_iff]
    constructor
    · rintro (⟨h1, _⟩ | ⟨_, _, h⟩)
      · rw [hda] at h1; cases h1
      · exact h
    · intro h
      exact Or.inr ⟨hda, hdb, h⟩
  · intro hda hdb hs
    rcases (sameFile_snd_iff a b).1 hs with ⟨h1, _⟩ | ⟨_, _, h, _⟩
    · rw [hda] at h1; cases h1
    · rw [h]; simp [Time.Equal]

/-- C7, the code at the failing input: the directory `/r/d` as read back from
the store and the directory `/q/d` as a listing gives it have the same
modification instant, size and mode, and both are directories, yet
`sameContent` is false, because `sameFile` compares the two `time.Time`
values with `==` and their locations differ while `compareCUD` compares the
same field with `Time.Equal`; `compareMv` then does not report the move. -/
theorem sameFile_directory_location :
    exDirStored.IsDir = true ∧ exDirListed.IsDir = true ∧
    exDirStored.FileMtime.Equal exDirListed.FileMtime = true ∧
    exDirStored.FileSize = exDirListed.FileSize ∧
    exDirStored.FileMode = exDirListed.FileMode ∧
    (sameFile exDirStored exDirListed).2 = false ∧
    (compareMv unixDir (AList.singleton "/r/d" exDirStored)
        (AList.singleton "/q/d" exDirListed)).moved.entries = [] ∧
    (compareMv unixDir (AList.singleton "/r/d" exDirStored)
        (AList.singleton "/q/d" { exDirListed with FileMtime := exDirStored.FileMtime })).moved.entries
      = [⟨"/r/d", { exDirListed with FileMtime := exDirStored.FileMtime }⟩] := by
  decide

/-- C5, the code at the failing input: one deleted entry `a.txt` and two created
entries `b.txt` and `c.txt` of the same directory, size and hash sum.  Both
created entries are removed although one deleted entry was removed and one
pair is reported. -/
theorem compareMv_two_matches :
    (compareMv unixDir (AList.singleton "/r/a.txt" exFileA)
        ((AList.singleton "/r/b.txt" exFileB).insert "/r/c.txt" exFileC)).created.entries = [] ∧
    (compareMv unixDir (AList.singleton "/r/a.txt" exFileA)
        ((AList.singleton "/r/b.txt" exFileB).insert "/r/c.txt" exFileC)).deleted.entries = [] ∧
    (compareMv unixDir (AList.singleton "/r/a.txt" exFileA)
        ((AList.singleton "/r/b.txt" exFileB).insert "/r/c.txt" exFileC)).moved.entries = [] ∧
    (compareMv unixDir (AList.singleton "/r/a.txt" exFileA)
        ((AList.singleton "/r/b.txt" exFileB).insert "/r/c.txt" exFileC)).renamed.entries
      = [⟨"/r/a.txt", exFileB⟩] := by
  decide

theorem lookup_erase_some {β : Type} (m : AList (fun _ : String => β)) (a k : String) (v : β)
    (h : (m.erase a).lookup k = some v) : m.lookup k = some v := by
  by_cases hk : k = a
  · subst hk; rw [AList.lookup_erase] at h; cases h
  · rwa [AList.lookup_erase_ne hk] at h

theorem mvInner_inv (Dir : String → String) (D0 C0 : FileInfos) (dk : String) (dv : FileInfo)
    (hdk : dk ∈ D0) (acc : Mv) (e : (_ : String) × FileInfo) (he : e.2.FilePath = e.1)
    (h : MvInv D0 C0 acc) : MvInv D0 C0 (mvInner Dir dk dv acc e) := by
  obtain ⟨h1, h2, h3, h4, h5⟩ := h
  unfold mvInner
  by_cases hm : ((sameFile dv e.2).1 || (sameFile dv e.2).2) = true
  · simp only [hm, if_true, FileInfos.Put, FileInfos.Delete, formatPath, FileInfo.Path]
    by_cases hdir : (Dir dk == Dir e.2.FilePath) = true
    · simp only [hdir, if_true]
      refine ⟨?_, ?_, ?_, ?_, ?_⟩
      · intro k hk; exact h1 k (AList.mem_erase.1 hk).2
      · intro k v hk; exact h2 k v (lookup_erase_some _ _ _ _ hk)
      · intro k hk; exact h3 k (AList.mem_erase.1 hk).2
      · intro k hk
        by_cases hkd : k = dk
        · subst hkd; exact ⟨hdk, fun hc => (AList.mem_erase.1 hc).1 rfl⟩
        · have hk2 : k ∈ acc.moved ∨ k ∈ acc.renamed := by
            rcases hk with hk | hk
            · exact Or.inl hk
            · rcases (AList.mem_insert _).1 hk with hk | hk
              · exact absurd hk hkd
              · exact Or.inr hk
          exact ⟨(h4 k hk2).1, fun hc => (h4 k hk2).2 (AList.mem_erase.1 hc).2⟩
      · intro k v hk hc
        have hc2 := AList.mem_erase.1 hc
        rcases hk with hk | hk
        · exact h5 k v (Or.inl hk) hc2.2
        · by_cases hkd : k = dk
          · subst hkd
            rw [AList.lookup_insert] at hk
            cases hk
            exact hc2.1 he
          · rw [AList.lookup_insert_ne hkd] at hk
            exact h5 k v (Or.inr hk) hc2.2
    · rw [Bool.not_eq_true] at hdir
      simp only [hdir, Bool.false_eq_true, if_false]
      refine ⟨?_, ?_, ?_, ?_, ?_⟩
      · intro k hk; exact h1 k (AList.mem_erase.1 hk).2
      · intro k v hk; exact h2 k v (lookup_erase_some _ _ _ _ hk)
      · intro k hk; exact h3 k (AList.mem_erase.1 hk).2
      · intro k hk
        by_cases hkd : k = dk
        · subst hkd; exact ⟨hdk, fun hc => (AList.mem_erase.1 hc).1 rfl⟩
        · have hk2 : k ∈ acc.moved ∨ k ∈ acc.renamed := by
            rcases hk with hk | hk
            · rcases (AList.mem_insert _).1 hk with hk | hk
              · exact absurd hk hkd
              · exact Or.inl hk
            · exact Or.inr hk
          exact ⟨(h4 k hk2).1, fun hc => (h4 k hk2).2 (AList.mem_erase.1 hc).2⟩
      · intro k v hk hc
        have hc2 := AList.mem_erase.1 hc
        rcases hk with hk | hk
        · by_cases hkd : k = dk
          · subst hkd
            rw [AList.lookup_insert] at hk
            cases hk
            exact hc2.1 he
          · rw [AList.lookup_insert_ne hkd] at hk
            exact h5 k v (Or.inl hk) hc2.2
        · exact h5 k v (Or.inr hk) hc2.2
  · simp only [hm]
    exact ⟨h1, h2, h3, h4, h5⟩

theorem mvInner_fold_inv (Dir : String → String) (D0 C0 : FileInfos) (dk : String) (dv : FileInfo)
    (hdk : dk ∈ D0) (l : List ((_ : String) × FileInfo)) (hl : ∀ e ∈ l, e.2.FilePath = e.1)
    (acc : Mv) (h : MvInv D0 C0 acc) : MvInv D0 C0 (l.foldl (mvInner Dir dk dv) acc) := by
  induction l generalizing acc with
  | nil => exact h
  | cons e l ih =>
    simp only [List.foldl_cons]
    exact ih (fun x hx => hl x (List.mem_cons_of_mem _ hx)) _
      (mvInner_inv Dir D0 C0 dk dv hdk acc e (hl e (List.mem_cons_self _ _)) h)

theorem mvOuter_inv (Dir : String → String) (D0 C0 : FileInfos) (acc : Mv)
    (d : (_ : String) × FileInfo) (hd : d.1 ∈ D0) (h : MvInv D0 C0 acc) :
    MvInv D0 C0 (mvOuter Dir acc d) := by
  unfold mvOuter
  refine mvInner_fold_inv Dir D0 C0 d.1 d.2 hd _ ?_ acc h
  intro e he
  have hlk : acc.created.lookup e.1 = some e.2 := by
    have : e.2 ∈ acc.created.lookup e.1 := AList.mem_lookup_iff.2 (by simpa using he)
    simpa using this
  exact h.2.1 e.1 e.2 hlk

theorem compareMv_inv (Dir : String → String) (deleted created : FileInfos)
    (hkey : ∀ k v, created.lookup k = some v → v.FilePath = k) :
    MvInv deleted created (compareMv Dir deleted created) := by
  unfold compareMv
  have hgen : ∀ (l : List ((_ : String) × FileInfo)), (∀ e ∈ l, e.1 ∈ deleted) →
      ∀ acc, MvInv deleted created acc → MvInv deleted created (l.foldl (mvOuter Dir) acc) := by
    intro l
    induction l with
    | nil => intro _ acc h; exact h
    | cons e l ih =>
      intro hl acc h
      simp only [List.foldl_cons]
      exact ih (fun x hx => hl x (List.mem_cons_of_mem _ hx)) _
        (mvOuter_inv Dir deleted created acc e (hl e (List.mem_cons_self _ _)) h)
  apply hgen
  · intro e he
    rw [AList.mem_keys]
    exact List.mem_keys_of_mem he
  · refine ⟨fun k hk => hk, hkey, fun k hk => hk, ?_, ?_⟩
    · intro k hk
      rcases hk with hk | hk <;> exact absurd hk (AList.not_mem_empty k)
    · intro k v hk
      rcases hk with hk | hk <;> simp [NewFileInfos] at hk

/-- C6: for argument collections with disjoint key sets whose created entries
are stored under their path, after `compareMv` every key of moved or renamed
is absent from the remaining deleted and created collections, and the path of
every entry stored as a value in moved or renamed is absent from the remaining
created collection. -/
theorem compareMv_outputs_gone (Dir : String → String) (deleted created : FileInfos)
    (hdisj : ∀ p, p ∈ deleted → p ∉ created)
    (hkey : ∀ k v, created.lookup k = some v → v.FilePath = k) :
    (∀ p, (p ∈ (compareMv Dir deleted created).moved ∨ p ∈ (compareMv Dir deleted created).renamed) →
      p ∉ (compareMv Dir deleted created).deleted ∧ p ∉ (compareMv Dir deleted created).created) ∧
    (∀ k v, ((compareMv Dir deleted created).moved.lookup k = some v ∨
        (compareMv Dir deleted created).renamed.lookup k = some v) →
      v.FilePath ∉ (compareMv Dir deleted created).created) := by
  obtain ⟨h1, _, _, h4, h5⟩ := compareMv_inv Dir deleted created hkey
  refine ⟨fun p hp => ⟨(h4 p hp).2, fun hc => hdisj p (h4 p hp).1 (h1 p hc)⟩, h5⟩

theorem compareMv_outputs_gone_witness :
    (∀ p, (p ∈ (compareMv unixDir (AList.singleton "/r/a.txt" exFileA)
          (AList.singleton "/r/c.txt" exFileC)).moved ∨
        p ∈ (compareMv unixDir (AList.singleton "/r/a.txt" exFileA)
          (AList.singleton "/r/c.txt" exFileC)).renamed) →
      p ∉ (compareMv unixDir (AList.singleton "/r/a.txt" exFileA)
          (AList.singleton "/r/c.txt" exFileC)).deleted ∧
      p ∉ (compareMv unixDir (AList.singleton "/r/a.txt" exFileA)
          (AList.singleton "/r/c.txt" exFileC)).created) ∧
    (∀ k v, ((compareMv unixDir (AList.singleton "/r/a.txt" exFileA)
          (AList.singleton "/r/c.txt" exFileC)).moved.lookup k = some v ∨
        (compareMv unixDir (AList.singleton "/r/a.txt" exFileA)
          (AList.singleton "/r/c.txt" exFileC)).renamed.lookup k = some v) →
      v.FilePath ∉ (compareMv unixDir (AList.singleton "/r/a.txt" exFileA)
          (AList.singleton "/r/c.txt" exFileC)).created) :=
  compareMv_outputs_gone unixDir (AList.singleton "/r/a.txt" exFileA)
    (AList.singleton "/r/c.txt" exFileC)
    (by
      intro p hp hc
      rw [AList.mem_keys, AList.keys_singleton, List.mem_singleton] at hp hc
      rw [hp] at hc
      exact absurd hc (by decide))
    (by
      intro k v h
      have hk : k ∈ (AList.singleton "/r/c.txt" exFileC : FileInfos) :=
        AList.lookup_isSome.1 (by rw [h]; rfl)
      rw [AList.mem_keys, AList.keys_singleton, List.mem_singleton] at hk
      subst hk
      have hv : (AList.singleton "/r/c.txt" exFileC : FileInfos).lookup "/r/c.txt" = some exFileC := by
        decide
      rw [hv] at h
      cases h
      rfl)

/-- The first scan of a root with three files and no prior state. -/
theorem compareCUD_first_scan_witness :
    (∀ p, (exAdapter.compareCUD "/r" exThreeFiles).created.lookup p = exThreeFiles.lookup p) ∧
    (exAdapter.compareCUD "/r" exThreeFiles).updated.entries = [] ∧
    (exAdapter.compareCUD "/r" exThreeFiles).deleted.entries = [] :=
  (compareCUD_partition exAdapter "/r" exThreeFiles).2.2.2.2.2 (Or.inl rfl)

/-! ## Theorems: `Watch` -/

theorem len_eq_zero_iff (m : FileInfos) : m.Len = 0 ↔ m.entries = [] := by
  unfold FileInfos.Len
  exact List.length_eq_zero

theorem alist_eq_empty {β : Type} (m : AList (fun _ : String => β)) (h : m.entries = []) :
    m = ∅ := AList.ext (by rw [h]; rfl)

theorem sync_fold_ne_nil (src : FileInfos) (l : List ((_ : String) × FileInfo)) (acc : FileInfos)
    (h : l ≠ [] ∨ acc.entries ≠ []) :
    (l.foldl (fun acc e => acc.insert e.1 ((src.lookup e.1).getD e.2)) acc).entries ≠ [] := by
  induction l generalizing acc with
  | nil =>
    rcases h with h | h
    · exact absurd rfl h
    · exact h
  | cons e l ih =>
    simp only [List.foldl_cons]
    apply ih
    right
    simp [AList.insert_entries]

theorem sync_entries_nil (fis src : FileInfos) (h : (fis.sync src).entries = []) :
    fis.entries = [] := by
  by_contra hne
  exact sync_fold_ne_nil src fis.entries NewFileInfos (Or.inl hne) h

theorem mvInner_keeps (Dir : String → String) (c0 : FileInfos) (dk : String) (dv : FileInfo)
    (acc : Mv) (e : (_ : String) × FileInfo)
    (h : (acc.moved.entries ≠ [] ∨ acc.renamed.entries ≠ []) ∨ acc.created = c0) :
    ((mvInner Dir dk dv acc e).moved.entries ≠ [] ∨ (mvInner Dir dk dv acc e).renamed.entries ≠ []) ∨
      (mvInner Dir dk dv acc e).created = c0 := by
  unfold mvInner
  by_cases hm : ((sameFile dv e.2).1 || (sameFile dv e.2).2) = true
  · simp only [hm, if_true, FileInfos.Put, FileInfos.Delete, formatPath, FileInfo.Path]
    left
    by_cases hdir : (Dir dk == Dir e.2.FilePath) = true
    · simp only [hdir, if_true]
      right
      simp [AList.insert_entries]
    · rw [Bool.not_eq_true] at hdir
      simp only [hdir, Bool.false_eq_true, if_false]
      left
      simp [AList.insert_entries]
  · simp only [hm]
    exact h

theorem compareMv_keeps (Dir : String → String) (deleted created : FileInfos) :
    ((compareMv Dir deleted created).moved.entries ≠ [] ∨
        (compareMv Dir deleted created).renamed.entries ≠ []) ∨
      (compareMv Dir deleted created).created = created := by
  unfold compareMv
  have hin : ∀ (dk : String) (dv : FileInfo) (l : List ((_ : String) × FileInfo)) (acc : Mv),
      ((acc.moved.entries ≠ [] ∨ acc.renamed.entries ≠ []) ∨ acc.created = created) →
      (((l.foldl (mvInner Dir dk dv) acc).moved.entries ≠ [] ∨
          (l.foldl (mvInner Dir dk dv) acc).renamed.entries ≠ []) ∨
        (l.foldl (mvInner Dir dk dv) acc).created = created) := by
    intro dk dv l
    induction l with
    | nil => intro acc h; exact h
    | cons e l ih =>
      intro acc h
      simp only [List.foldl_cons]
      exact ih _ (mvInner_keeps Dir created dk dv acc e h)
  have hout : ∀ (l : List ((_ : String) × FileInfo)) (acc : Mv),
      ((acc.moved.entries ≠ [] ∨ acc.renamed.entries ≠ []) ∨ acc.created = created) →
      (((l.foldl (mvOuter Dir) acc).moved.entries ≠ [] ∨
          (l.foldl (mvOuter Dir) acc).renamed.entries ≠ []) ∨
        (l.foldl (mvOuter Dir) acc).created = created) := by
    intro l
    induction l with
    | nil => intro acc h; exact h
    | cons d l ih =>
      intro acc h
      simp only [List.foldl_cons]
      exact ih _ (hin d.1 d.2 _ acc h)
  exact hout _ _ (Or.inr rfl)

theorem hashing_empty (x : Ext) (s : Adapter) (w : World) (rootPath : String) :
    s.hashing x w rootPath NewFileInfos = (w, NewFileInfos) := by
  simp [Adapter.hashing, FileInfos.stats, NewFileInfos]

/-- C9: when `Compare` yields empty created, updated, deleted, moved and
renamed collections for a root, the body of the loop of `Watch` does not call
`Save` and makes no call on any store: the world after it, with its database
files and its log of store calls (opens of the snapshot store or of the hash
cache included), is the world before it, and the adapter is unchanged. -/
theorem watchRoot_no_change (x : Ext) (s : Adapter) (w : World) (rootPath : String)
    (infos : FileInfos)
    (hc : (s.Compare x w rootPath infos).created.Len = 0)
    (hu : (s.Compare x w rootPath infos).updated.Len = 0)
    (hd : (s.Compare x w rootPath infos).deleted.Len = 0)
    (hm : (s.Compare x w rootPath infos).moved.Len = 0)
    (hr : (s.Compare x w rootPath infos).renamed.Len = 0) :
    (watchRoot x s w rootPath infos).world = w ∧
    (watchRoot x s w rootPath infos).world.log = w.log ∧
    (watchRoot x s w rootPath infos).adapter = s ∧
    (watchRoot x s w rootPath infos).panicked = false := by
  have hcond : ((s.Compare x w rootPath infos).deleted.Len > 0 ||
      (s.Compare x w rootPath infos).created.Len > 0 ||
      (s.Compare x w rootPath infos).updated.Len > 0 ||
      (s.Compare x w rootPath infos).moved.Len > 0 ||
      (s.Compare x w rootPath infos).renamed.Len > 0) = false := by
    rw [hc, hu, hd, hm, hr]; rfl
  rw [len_eq_zero_iff] at hc hu hm hr
  -- the collections `compareCUD` returned are empty as well
  have hupd : (s.compareCUD rootPath infos).updated.entries = [] :=
    sync_entries_nil _ _ hu
  have hcre : (s.compareCUD rootPath infos).created.entries = [] := by
    apply sync_entries_nil _ (s.hashing x w rootPath
      (NewFileInfos.Append [(s.compareCUD rootPath infos).created,
        (s.compareCUD rootPath infos).updated])).2
    rcases compareMv_keeps x.Dir (s.compareCUD rootPath infos).deleted
      ((s.compareCUD rootPath infos).created.sync (s.hashing x w rootPath
        (NewFileInfos.Append [(s.compareCUD rootPath infos).created,
          (s.compareCUD rootPath infos).updated])).2) with h | h
    · rcases h with h | h
      · exact absurd hm h
      · exact absurd hr h
    · rw [← h]; exact hc
  have happ : NewFileInfos.Append [(s.compareCUD rootPath infos).created,
      (s.compareCUD rootPath infos).updated] = NewFileInfos := by
    simp [FileInfos.Append, hcre, hupd]
  have hw : (s.Compare x w rootPath infos).world = w := by
    show (s.hashing x w rootPath _).1 = w
    rw [happ, hashing_empty]
  have hwr : watchRoot x s w rootPath infos =
      { adapter := s, world := (s.Compare x w rootPath infos).world, panicked := false } := by
    unfold watchRoot
    simp only [hcond, Bool.false_eq_true, if_false]
  rw [hwr]
  exact ⟨hw, by rw [hw], rfl, rfl⟩

theorem watchRoot_no_change_witness :
    (watchRoot exExt exLoaded exWorld "/r" exThreeFiles).world = exWorld ∧
    (watchRoot exExt exLoaded exWorld "/r" exThreeFiles).world.log = exWorld.log ∧
    (watchRoot exExt exLoaded exWorld "/r" exThreeFiles).adapter = exLoaded ∧
    (watchRoot exExt exLoaded exWorld "/r" exThreeFiles).panicked = false :=
  watchRoot_no_change exExt exLoaded exWorld "/r" exThreeFiles (by decide) (by decide) (by decide)
    (by decide) (by decide)

/-- C10, the code at the failing input: a collection that holds only the
symbolic link `exLink`, a non-directory without hash sum whose file can be
read, comes back from `hashing` unchanged, the link still without hash sum,
and no store is opened; next to one regular file the same link is hashed. -/
theorem hashing_symlink_only :
    exLink.IsDir = false ∧ exLink.FileHashSum = none ∧
    exExt.readFile exLink.FilePath = some [7] ∧
    (exAdapter.hashing exExt exWorld "/r" (AList.singleton "/r/link" exLink)).2.entries
      = [⟨"/r/link", exLink⟩] ∧
    (exAdapter.hashing exExt exWorld "/r" (AList.singleton "/r/link" exLink)).1.log = [] ∧
    (exAdapter.hashing exExt exWorld "/r"
        ((AList.singleton "/r/link" exLink).insert "/r/a.txt" exFileNew)).2.lookup "/r/link"
      = some { exLink with FileHashSum := some [1, 7] } := by
  decide

/-! ## Theorems: the store -/

theorem update_spec (w : World) (path : String) (op : StoreOp)
    (fn : Buckets → Except BoltErr Buckets) (hf : w.NoFault) :
    (w.update path op fn).1.NoFault ∧ (w.update path op fn).1.locked = w.locked ∧
    (∀ b, fn (w.buckets path) = Except.ok b →
      (w.update path op fn).1.buckets path = b ∧ (w.update path op fn).2 = none) ∧
    (∀ err, fn (w.buckets path) = Except.error err →
      (w.update path op fn).1.buckets path = w.buckets path ∧
      (w.update path op fn).2 = some err) := by
  unfold World.update
  cases hfn : fn (w.buckets path) with
  | error err =>
    refine ⟨hf, rfl, ?_, ?_⟩
    · intro b hb; cases hb
    · intro e he; cases he; exact ⟨rfl, rfl⟩
  | ok b =>
    cases hfl : w.faults with
    | nil =>
      refine ⟨?_, ?_, ?_, ?_⟩
      · intro f hfm; simp [hfl] at hfm
      · simp [hfl]
      · intro b2 hb; cases hb
        simp [hfl, World.buckets, AList.lookup_insert]
      · intro e he; cases he
    | cons f rest =>
      have hff : f = false := hf f (by rw [hfl]; exact List.mem_cons_self _ _)
      subst hff
      refine ⟨?_, ?_, ?_, ?_⟩
      · intro f hfm
        simp only [hfl] at hfm
        exact hf f (by rw [hfl]; exact List.mem_cons_of_mem _ hfm)
      · simp [hfl]
      · intro b2 hb; cases hb
        simp [hfl, World.buckets, AList.lookup_insert]
      · intro e he; cases he

theorem openDB_spec (w : World) (path : String) (hl : path ∉ w.locked) :
    (openDB w path).2 = some path ∧ (openDB w path).1.locked = w.locked ∧
    (openDB w path).1.faults = w.faults ∧
    (∀ q, (openDB w path).1.buckets q = w.buckets q) := by
  unfold openDB
  simp only [hl, if_false]
  cases hd : w.disk.lookup path with
  | some b => exact ⟨rfl, rfl, rfl, fun q => rfl⟩
  | none =>
    refine ⟨rfl, rfl, rfl, fun q => ?_⟩
    by_cases hq : q = path
    · subst hq
      simp [World.buckets, AList.lookup_insert, hd]
    · simp [World.buckets, AList.lookup_insert_ne hq]

theorem bucketPut_ok (bucket : Bucket) (key : String) (value : Json) (hk : key ≠ "")
    (hks : key.utf8ByteSize ≤ MaxKeySize) (hvs : value.length ≤ MaxValueSize) :
    bucketPut bucket key value = Except.ok (bucket.insert key value) := by
  unfold bucketPut
  have h1 : (key == "") = false := by simp [hk]
  have h2 : ¬ key.utf8ByteSize > MaxKeySize := Nat.not_lt.2 hks
  have h3 : ¬ value.length > MaxValueSize := Nat.not_lt.2 hvs
  simp only [h1, Bool.false_eq_true, if_false, h2, h3]

theorem putChunk_spec (x : Ext) (l : List ((_ : String) × FileInfo)) (nd : l.NodupKeys)
    (hgood : ∀ e ∈ l, Storable x e.1 e.2) (bucket : Bucket) :
    ∃ b, putChunk x l bucket = Except.ok b ∧
      ∀ k, b.lookup k = match l.dlookup k with
        | some v => some (x.marshal v)
        | none => bucket.lookup k := by
  induction l generalizing bucket with
  | nil => exact ⟨bucket, rfl, fun k => rfl⟩
  | cons e l ih =>
    have hnd := List.nodupKeys_cons.1 nd
    have he := hgood e (List.mem_cons_self _ _)
    have hlen : ((x.marshal e.2).length == 0) = false := by
      simp [he.1]
    have hput : bucketPut bucket (pathKey e.1) (x.marshal e.2) =
        Except.ok (bucket.insert (pathKey e.1) (x.marshal e.2)) :=
      bucketPut_ok bucket (pathKey e.1) (x.marshal e.2) he.2.1 he.2.2.1 he.2.2.2
    obtain ⟨b, hb, hlk⟩ := ih hnd.2 (fun e2 h2 => hgood e2 (List.mem_cons_of_mem _ h2))
      (bucket.insert (pathKey e.1) (x.marshal e.2))
    refine ⟨b, ?_, fun k => ?_⟩
    · simp only [putChunk, hlen, hput, Bool.false_eq_true, if_false]
      exact hb
    · rw [hlk k]
      by_cases hk : k = e.1
      · have hnone : l.dlookup k = none := by
          rw [List.dlookup_eq_none, hk]; exact hnd.1
        have hsome : List.dlookup k (e :: l) = some e.2 := by
          subst hk; exact List.dlookup_cons_eq l e.1 e.2
        rw [hnone, hsome]
        subst hk
        simp [pathKey, formatPath, AList.lookup_insert]
      · have hcons : List.dlookup k (e :: l) = List.dlookup k l := List.dlookup_cons_ne l e hk
        rw [hcons]
        cases l.dlookup k with
        | some v => rfl
        | none => simp [pathKey, formatPath, AList.lookup_insert_ne hk]

theorem alist_lookup_of_mem_entries {β : Type} (m : AList (fun _ : String => β))
    (e : (_ : String) × β) (h : e ∈ m.entries) : m.lookup e.1 = some e.2 := by
  have : e.2 ∈ m.lookup e.1 := AList.mem_lookup_iff.2 (by simpa using h)
  simpa using this

theorem batch_update_spec (x : Ext) (w : World) (path bucketName : String) (op : StoreOp)
    (chunk : FileInfos) (hf : w.NoFault) (hb : bucketName ≠ "")
    (hgood : ∀ e ∈ chunk.entries, Storable x e.1 e.2) :
    (w.update path op (batchFn x bucketName chunk)).1.NoFault ∧
    (w.update path op (batchFn x bucketName chunk)).1.locked = w.locked ∧
    (w.update path op (batchFn x bucketName chunk)).2 = none ∧
    ∀ k, (w.update path op (batchFn x bucketName chunk)).1.valueAt path bucketName k =
      match chunk.lookup k with
      | some v => some (x.marshal v)
      | none => w.valueAt path bucketName k := by
  obtain ⟨bk, hbk, hlk⟩ := putChunk_spec x chunk.entries chunk.nodupKeys hgood
    (((w.buckets path).lookup bucketName).getD ∅)
  have hfn : batchFn x bucketName chunk (w.buckets path) =
      Except.ok ((w.buckets path).insert bucketName bk) := by
    unfold batchFn
    have hbe : (bucketName == "") = false := by simp [hb]
    simp only [hbe, Bool.false_eq_true, if_false, hbk]
  obtain ⟨h1, h2, h3, _⟩ := update_spec w path op (batchFn x bucketName chunk) hf
  obtain ⟨h3a, h3b⟩ := h3 _ hfn
  refine ⟨h1, h2, h3b, fun k => ?_⟩
  unfold World.valueAt
  rw [h3a, AList.lookup_insert]
  exact hlk k

theorem chunks_fold_spec (x : Ext) (path bucketName : String) (hb : bucketName ≠ "")
    (L : List FileInfos)
    (hgood : ∀ c ∈ L, ∀ e ∈ c.entries, Storable x e.1 e.2)
    (acc : World × List BoltErr) (hf : acc.1.NoFault) :
    (L.foldl (fun (acc : World × List BoltErr) chunk =>
        ((acc.1.update path (StoreOp.batch path bucketName chunk.keys)
            (batchFn x bucketName chunk)).1,
          acc.2 ++ (acc.1.update path (StoreOp.batch path bucketName chunk.keys)
            (batchFn x bucketName chunk)).2.toList)) acc).1.NoFault ∧
    (L.foldl (fun (acc : World × List BoltErr) chunk =>
        ((acc.1.update path (StoreOp.batch path bucketName chunk.keys)
            (batchFn x bucketName chunk)).1,
          acc.2 ++ (acc.1.update path (StoreOp.batch path bucketName chunk.keys)
            (batchFn x bucketName chunk)).2.toList)) acc).1.locked = acc.1.locked ∧
    (L.foldl (fun (acc : World × List BoltErr) chunk =>
        ((acc.1.update path (StoreOp.batch path bucketName chunk.keys)
            (batchFn x bucketName chunk)).1,
          acc.2 ++ (acc.1.update path (StoreOp.batch path bucketName chunk.keys)
            (batchFn x bucketName chunk)).2.toList)) acc).2 = acc.2 ∧
    ∀ k,
      ((∀ c ∈ L, c.lookup k = none) →
        (L.foldl (fun (acc : World × List BoltErr) chunk =>
          ((acc.1.update path (StoreOp.batch path bucketName chunk.keys)
              (batchFn x bucketName chunk)).1,
            acc.2 ++ (acc.1.update path (StoreOp.batch path bucketName chunk.keys)
              (batchFn x bucketName chunk)).2.toList)) acc).1.valueAt path bucketName k
          = acc.1.valueAt path bucketName k) ∧
      (∀ v, (∃ c ∈ L, c.lookup k = some v) →
        (∀ c ∈ L, ∀ v2, c.lookup k = some v2 → v2 = v) →
        (L.foldl (fun (acc : World × List BoltErr) chunk =>
          ((acc.1.update path (StoreOp.batch path bucketName chunk.keys)
              (batchFn x bucketName chunk)).1,
            acc.2 ++ (acc.1.update path (StoreOp.batch path bucketName chunk.keys)
              (batchFn x bucketName chunk)).2.toList)) acc).1.valueAt path bucketName k
          = some (x.marshal v)) := by
  induction L generalizing acc with
  | nil =>
    refine ⟨hf, rfl, rfl, fun k => ⟨fun _ => rfl, ?_⟩⟩
    rintro v ⟨c, hc, _⟩ _
    cases hc
  | cons c L ih =>
    obtain ⟨s1, s2, s3, s4⟩ := batch_update_spec x acc.1 path bucketName
      (StoreOp.batch path bucketName c.keys) c hf hb (hgood c (List.mem_cons_self _ _))
    obtain ⟨i1, i2, i3, i4⟩ := ih (fun c2 h2 => hgood c2 (List.mem_cons_of_mem _ h2))
      ((acc.1.update path (StoreOp.batch path bucketName c.keys) (batchFn x bucketName c)).1,
        acc.2 ++ (acc.1.update path (StoreOp.batch path bucketName c.keys)
          (batchFn x bucketName c)).2.toList) s1
    simp only [List.foldl_cons]
    refine ⟨i1, i2.trans s2, ?_, fun k => ⟨?_, ?_⟩⟩
    · rw [i3, s3]; simp
    · intro hnone
      rw [(i4 k).1 (fun c2 h2 => hnone c2 (List.mem_cons_of_mem _ h2)), s4 k,
        hnone c (List.mem_cons_self _ _)]
    · intro v hex hcons
      by_cases hL : ∃ c2 ∈ L, c2.lookup k = some v
      · exact (i4 k).2 v hL (fun c2 h2 v2 hv2 => hcons c2 (List.mem_cons_of_mem _ h2) v2 hv2)
      · have hnone : ∀ c2 ∈ L, c2.lookup k = none := by
          intro c2 h2
          cases hc2 : c2.lookup k with
          | none => rfl
          | some v2 =>
            exfalso
            have := hcons c2 (List.mem_cons_of_mem _ h2) v2 hc2
            subst this
            exact hL ⟨c2, h2, hc2⟩
        have hc : c.lookup k = some v := by
          obtain ⟨c2, h2, hv⟩ := hex
          rcases List.mem_cons.1 h2 with h | h
          · subst h; exact hv
          · rw [hnone c2 h] at hv; cases hv
        rw [(i4 k).1 hnone, s4 k, hc]

theorem chunkStep_chunks (acc : Nat × List FileInfos × FileInfos) (e : (_ : String) × FileInfo) :
    ((chunkStep acc e).2.1 ++ [(chunkStep acc e).2.2] = acc.2.1 ++ [acc.2.2.insert e.1 e.2]) ∨
    ((chunkStep acc e).2.1 ++ [(chunkStep acc e).2.2]
      = acc.2.1 ++ [acc.2.2.insert e.1 e.2] ++ [NewFileInfos]) := by
  unfold chunkStep
  by_cases h : ((acc.1 + 1) % 1000 == 0) = true
  · right; simp only [h, if_true]
  · left; simp only [h]; rfl

theorem chunkStep_lookup (acc : Nat × List FileInfos × FileInfos) (e : (_ : String) × FileInfo)
    (hfresh : ∀ c ∈ acc.2.1 ++ [acc.2.2], c.lookup e.1 = none) (k : String) (v : FileInfo) :
    (∃ c ∈ (chunkStep acc e).2.1 ++ [(chunkStep acc e).2.2], c.lookup k = some v) ↔
      ((∃ c ∈ acc.2.1 ++ [acc.2.2], c.lookup k = some v) ∨ (k = e.1 ∧ v = e.2)) := by
  have key : (∃ c ∈ acc.2.1 ++ [acc.2.2.insert e.1 e.2], c.lookup k = some v) ↔
      ((∃ c ∈ acc.2.1 ++ [acc.2.2], c.lookup k = some v) ∨ (k = e.1 ∧ v = e.2)) := by
    constructor
    · rintro ⟨c, hc, hv⟩
      rcases List.mem_append.1 hc with h | h
      · exact Or.inl ⟨c, List.mem_append_left _ h, hv⟩
      · rw [List.mem_singleton] at h
        subst h
        by_cases hk : k = e.1
        · subst hk
          rw [AList.lookup_insert] at hv
          cases hv
          exact Or.inr ⟨rfl, rfl⟩
        · rw [AList.lookup_insert_ne hk] at hv
          exact Or.inl ⟨acc.2.2, List.mem_append_right _ (List.mem_singleton.2 rfl), hv⟩
    · rintro (⟨c, hc, hv⟩ | ⟨hk, hv⟩)
      · rcases List.mem_append.1 hc with h | h
        · exact ⟨c, List.mem_append_left _ h, hv⟩
        · rw [List.mem_singleton] at h
          subst h
          have hk : k ≠ e.1 := by
            intro hk
            subst hk
            rw [hfresh acc.2.2 (List.mem_append_right _ (List.mem_singleton.2 rfl))] at hv
            cases hv
          exact ⟨acc.2.2.insert e.1 e.2, List.mem_append_right _ (List.mem_singleton.2 rfl),
            by rw [AList.lookup_insert_ne hk]; exact hv⟩
      · subst hk; subst hv
        exact ⟨acc.2.2.insert e.1 e.2, List.mem_append_right _ (List.mem_singleton.2 rfl),
          AList.lookup_insert _⟩
  rcases chunkStep_chunks acc e with h | h
  · rw [h]; exact key
  · rw [h, ← key]
    constructor
    · rintro ⟨c, hc, hv⟩
      rcases List.mem_append.1 hc with h2 | h2
      · exact ⟨c, h2, hv⟩
      · rw [List.mem_singleton] at h2
        subst h2
        simp [NewFileInfos] at hv
    · rintro ⟨c, hc, hv⟩
      exact ⟨c, List.mem_append_left _ hc, hv⟩

theorem chunk_fold_lookup (l : List ((_ : String) × FileInfo)) (nd : l.NodupKeys)
    (acc : Nat × List FileInfos × FileInfos)
    (hfresh : ∀ e ∈ l, ∀ c ∈ acc.2.1 ++ [acc.2.2], c.lookup e.1 = none)
    (k : String) (v : FileInfo) :
    (∃ c ∈ (l.foldl chunkStep acc).2.1 ++ [(l.foldl chunkStep acc).2.2], c.lookup k = some v) ↔
      ((∃ c ∈ acc.2.1 ++ [acc.2.2], c.lookup k = some v) ∨ l.dlookup k = some v) := by
  induction l generalizing acc with
  | nil => simp
  | cons e l ih =>
    have hnd := List.nodupKeys_cons.1 nd
    have hstep := chunkStep_lookup acc e (hfresh e (List.mem_cons_self _ _))
    have hfresh2 : ∀ e2 ∈ l, ∀ c ∈ (chunkStep acc e).2.1 ++ [(chunkStep acc e).2.2],
        c.lookup e2.1 = none := by
      intro e2 h2 c hc
      cases hcl : c.lookup e2.1 with
      | none => rfl
      | some v2 =>
        exfalso
        rcases (hstep e2.1 v2).1 ⟨c, hc, hcl⟩ with ⟨c3, hc3, hv3⟩ | ⟨hk, _⟩
        · rw [hfresh e2 (List.mem_cons_of_mem _ h2) c3 hc3] at hv3
          cases hv3
        · exact hnd.1 (hk ▸ List.mem_keys_of_mem h2)
    simp only [List.foldl_cons]
    rw [ih hnd.2 (chunkStep acc e) hfresh2, hstep k v]
    by_cases hk : k = e.1
    · have hnone : l.dlookup k = none := by
        rw [List.dlookup_eq_none, hk]; exact hnd.1
      have hsome : List.dlookup k (e :: l) = some e.2 := by
        subst hk; exact List.dlookup_cons_eq l e.1 e.2
      rw [hnone, hsome]
      constructor
      · rintro ((h | ⟨_, hv⟩) | h)
        · exact Or.inl h
        · exact Or.inr (by rw [hv])
        · cases h
      · rintro (h | h)
        · exact Or.inl (Or.inl h)
        · exact Or.inl (Or.inr ⟨hk, (Option.some.inj h).symm⟩)
    · have hcons : List.dlookup k (e :: l) = List.dlookup k l := List.dlookup_cons_ne l e hk
      rw [hcons]
      constructor
      · rintro ((h | ⟨hk2, _⟩) | h)
        · exact Or.inl h
        · exact absurd hk2 hk
        · exact Or.inr h
      · rintro (h | h)
        · exact Or.inl (Or.inl h)
        · exact Or.inr h

/-- The chunks of a collection hold exactly its entries. -/
theorem chunkInfos_lookup (infos : FileInfos) (k : String) (v : FileInfo) :
    (∃ c ∈ chunkInfos infos, c.lookup k = some v) ↔ infos.lookup k = some v := by
  unfold chunkInfos
  rw [chunk_fold_lookup infos.entries infos.nodupKeys (0, [], NewFileInfos)
    (by intro e _ c hc; simp at hc; subst hc; rfl) k v]
  constructor
  · rintro (⟨c, hc, hv⟩ | h)
    · simp at hc; subst hc; simp [NewFileInfos] at hv
    · exact h
  · intro h; exact Or.inr h

theorem readAll_fold_lookup (x : Ext) (l : List ((_ : String) × Json)) (nd : l.NodupKeys)
    (acc : FileInfos) (k : String) :
    (l.foldl (fun infos e =>
        match x.unmarshal e.2 with
        | some info => FileInfos.Put infos e.1 info
        | none => infos) acc).lookup k =
      match l.dlookup k with
      | some j => (match x.unmarshal j with | some info => some info | none => acc.lookup k)
      | none => acc.lookup k := by
  induction l generalizing acc with
  | nil => rfl
  | cons e l ih =>
    have hnd := List.nodupKeys_cons.1 nd
    simp only [List.foldl_cons]
    rw [ih hnd.2]
    by_cases hk : k = e.1
    · have hnone : l.dlookup k = none := by
        rw [List.dlookup_eq_none, hk]; exact hnd.1
      have hsome : List.dlookup k (e :: l) = some e.2 := by
        subst hk; exact List.dlookup_cons_eq l e.1 e.2
      rw [hnone, hsome]
      subst hk
      cases hu : x.unmarshal e.2 with
      | none => simp [hu]
      | some info => simp [hu, FileInfos.Put, formatPath, AList.lookup_insert]
    · have hcons : List.dlookup k (e :: l) = List.dlookup k l := List.dlookup_cons_ne l e hk
      rw [hcons]
      have hacc : (match x.unmarshal e.2 with
          | some info => FileInfos.Put acc e.1 info
          | none => acc).lookup k = acc.lookup k := by
        cases x.unmarshal e.2 with
        | none => rfl
        | some info => simp [FileInfos.Put, formatPath, AList.lookup_insert_ne hk]
      rw [hacc]

/-- What `readAllFileInfos` returns, key by key. -/
theorem readAllFileInfos_lookup (x : Ext) (w : World) (path bucketName : String) (k : String) :
    (readAllFileInfos x w (some path) bucketName).lookup k =
      (w.valueAt path bucketName k).bind x.unmarshal := by
  unfold readAllFileInfos World.valueAt
  cases hb : (w.buckets path).lookup bucketName with
  | none => simp [NewFileInfos, hb]
  | some bucket =>
    simp only [Option.getD_some, hb]
    rw [readAll_fold_lookup x bucket.entries bucket.nodupKeys NewFileInfos k]
    show _ = (bucket.lookup k).bind x.unmarshal
    unfold AList.lookup
    cases List.dlookup k bucket.entries with
    | none => simp [NewFileInfos]
    | some j =>
      cases hu : x.unmarshal j with
      | none => simp [NewFileInfos, hu]
      | some info => simp [hu]

theorem deleteBucket_update_spec (w : World) (path bucketName : String) (op : StoreOp)
    (hf : w.NoFault) :
    (w.update path op (deleteBucketFn bucketName)).1.NoFault ∧
    (w.update path op (deleteBucketFn bucketName)).1.locked = w.locked ∧
    ∀ k, (w.update path op (deleteBucketFn bucketName)).1.valueAt path bucketName k = none := by
  obtain ⟨h1, h2, h3, h4⟩ := update_spec w path op (deleteBucketFn bucketName) hf
  refine ⟨h1, h2, fun k => ?_⟩
  unfold World.valueAt
  cases hb : (w.buckets path).lookup bucketName with
  | none =>
    have hfn : deleteBucketFn bucketName (w.buckets path) = Except.error BoltErr.bucketNotFound := by
      simp [deleteBucketFn, hb]
    rw [(h4 _ hfn).1, hb]
    rfl
  | some b =>
    have hfn : deleteBucketFn bucketName (w.buckets path) =
        Except.ok ((w.buckets path).erase bucketName) := by
      simp [deleteBucketFn, hb]
    rw [(h3 _ hfn).1, AList.lookup_erase]
    rfl

/-- With no failing commit, a bucket name and keys that are not empty and
records that serialise to some bytes, `putFileInfos` with `deleteHistory`
leaves in the bucket exactly the serialised entries of the collection and
returns the nil error. -/
theorem putFileInfos_replace (x : Ext) (w : World) (path bucketName : String) (infos : FileInfos)
    (hf : w.NoFault) (hb : bucketName ≠ "")
    (hgood : ∀ k v, infos.lookup k = some v → Storable x k v) :
    (putFileInfos x w (some path) bucketName infos true).1.NoFault ∧
    (putFileInfos x w (some path) bucketName infos true).1.locked = w.locked ∧
    (putFileInfos x w (some path) bucketName infos true).2 = [] ∧
    ∀ k, (putFileInfos x w (some path) bucketName infos true).1.valueAt path bucketName k
      = (infos.lookup k).map x.marshal := by
  obtain ⟨d1, d2, d3⟩ := deleteBucket_update_spec w path bucketName
    (StoreOp.deleteBucket path bucketName) hf
  have hchunks : ∀ c ∈ chunkInfos infos, ∀ e ∈ c.entries, Storable x e.1 e.2 := by
    intro c hc e he
    exact hgood e.1 e.2
      ((chunkInfos_lookup infos e.1 e.2).1 ⟨c, hc, alist_lookup_of_mem_entries c e he⟩)
  obtain ⟨c1, c2, c3, c4⟩ := chunks_fold_spec x path bucketName hb (chunkInfos infos) hchunks
    ((w.update path (StoreOp.deleteBucket path bucketName) (deleteBucketFn bucketName)).1, []) d1
  have hdef : putFileInfos x w (some path) bucketName infos true =
      (chunkInfos infos).foldl (fun (acc : World × List BoltErr) chunk =>
        ((acc.1.update path (StoreOp.batch path bucketName chunk.keys)
            (batchFn x bucketName chunk)).1,
          acc.2 ++ (acc.1.update path (StoreOp.batch path bucketName chunk.keys)
            (batchFn x bucketName chunk)).2.toList))
        ((w.update path (StoreOp.deleteBucket path bucketName) (deleteBucketFn bucketName)).1, []) := by
    simp [putFileInfos]
  rw [hdef]
  refine ⟨c1, c2.trans d2, c3, fun k => ?_⟩
  cases hk : infos.lookup k with
  | none =>
    have hnone : ∀ c ∈ chunkInfos infos, c.lookup k = none := by
      intro c hc
      cases hcl : c.lookup k with
      | none => rfl
      | some v =>
        have := (chunkInfos_lookup infos k v).1 ⟨c, hc, hcl⟩
        rw [hk] at this; cases this
    rw [(c4 k).1 hnone]
    exact d3 k
  | some v =>
    rw [(c4 k).2 v ((chunkInfos_lookup infos k v).2 hk) (by
      intro c hc v2 hv2
      have := (chunkInfos_lookup infos k v2).1 ⟨c, hc, hv2⟩
      rw [hk] at this
      exact (Option.some.inj this).symm)]
    rfl

/-- C8: when the store of the root can be opened, no commit fails, bolt
accepts the bucket name, the keys and the values (root path and paths not
empty, paths of at most `MaxKeySize` bytes, records of at most `MaxValueSize`
bytes), and every saved entry serialises to bytes from which sonic reads an
entry with the same hash sum, size, modification time and mode, then after
`Save` the bucket of the root in the store file holds exactly the serialised
saved entries, whatever it held before and whatever the size of the
collection, and `load`, run by any adapter `s2` (a fresh one at start-up) in
the world `Save` left, returns no error and gives the root a collection read
from the store: it has exactly the saved paths, each with the entry that
sonic reads back from the saved record, hence with the saved hash sum, size,
modification time and mode. -/
theorem save_load_roundtrip (x : Ext) (s s2 : Adapter) (w : World) (rootPath : String)
    (fileInfos : FileInfos)
    (hopen : getDbPath x rootPath ∉ w.locked) (hfault : ∀ f ∈ w.faults, f = false)
    (hroot : rootPath ≠ "")
    (hstore : ∀ p fi, fileInfos.lookup p = some fi →
      p ≠ "" ∧ p.utf8ByteSize ≤ MaxKeySize ∧
      x.marshal fi ≠ [] ∧ (x.marshal fi).length ≤ MaxValueSize)
    (hcodec : ∀ p fi, fileInfos.lookup p = some fi →
      ∃ fi2, x.unmarshal (x.marshal fi) = some fi2 ∧
        fi2.FileHashSum = fi.FileHashSum ∧ fi2.FileSize = fi.FileSize ∧
        fi2.FileMtime.Equal fi.FileMtime = true ∧ fi2.FileMode = fi.FileMode) :
    (s.Save x w rootPath fileInfos).panicked = false ∧
    (∀ p, (s.Save x w rootPath fileInfos).world.valueAt (getDbPath x rootPath)
        (pathKey rootPath) p = (fileInfos.lookup p).map x.marshal) ∧
    (s2.load x (s.Save x w rootPath fileInfos).world rootPath).2.2 = none ∧
    ∃ loaded,
      (s2.load x (s.Save x w rootPath fileInfos).world rootPath).1.fileList.lookup
          (formatPath rootPath) = some loaded ∧
      loaded = readAllFileInfos x
        (openDB (s.Save x w rootPath fileInfos).world (getDbPath x rootPath)).1
        (some (getDbPath x rootPath)) (pathKey rootPath) ∧
      (∀ p, p ∈ loaded ↔ p ∈ fileInfos) ∧
      (∀ p fi, fileInfos.lookup p = some fi → loaded.lookup p = x.unmarshal (x.marshal fi)) ∧
      (∀ p fi, fileInfos.lookup p = some fi → ∃ fi2, loaded.lookup p = some fi2 ∧
        fi2.FileHashSum = fi.FileHashSum ∧ fi2.FileSize = fi.FileSize ∧
        fi2.FileMtime.Equal fi.FileMtime = true ∧ fi2.FileMode = fi.FileMode) := by
  obtain ⟨o1, o2, o3, _⟩ := openDB_spec w (getDbPath x rootPath) hopen
  have hf1 : (openDB w (getDbPath x rootPath)).1.NoFault := by
    unfold World.NoFault; rw [o3]; exact hfault
  -- the write of the setting
  obtain ⟨p1, p2, _, _⟩ := update_spec (openDB w (getDbPath x rootPath)).1 (getDbPath x rootPath)
    (StoreOp.putSetting (getDbPath x rootPath) (pathKey rootPath))
    (putSettingFn x (pathKey rootPath)
      { RootPath := rootPath, At := w.now, HashAlgorithm := s.hashAlgorithm,
        Stats := fileInfos.stats }) hf1
  have hgood : ∀ k v, fileInfos.lookup k = some v → Storable x k v := by
    intro k v h
    obtain ⟨h1, h2, h3, h4⟩ := hstore k v h
    exact ⟨h3, h1, h2, h4⟩
  obtain ⟨q1, q2, _, q4⟩ := putFileInfos_replace x _ (getDbPath x rootPath) (pathKey rootPath)
    fileInfos p1 (by simpa [pathKey, formatPath] using hroot) hgood
  -- the outcome of `Save`
  have hworld : (s.Save x w rootPath fileInfos).world =
      (putFileInfos x
        ((openDB w (getDbPath x rootPath)).1.update (getDbPath x rootPath)
          (StoreOp.putSetting (getDbPath x rootPath) (pathKey rootPath))
          (putSettingFn x (pathKey rootPath)
            { RootPath := rootPath, At := w.now, HashAlgorithm := s.hashAlgorithm,
              Stats := fileInfos.stats })).1
        (some (getDbPath x rootPath)) (pathKey rootPath) fileInfos true).1 := by
    simp [Adapter.Save, o1, putSetting]
  have hpanic : (s.Save x w rootPath fileInfos).panicked = false := by
    simp [Adapter.Save, o1]
  have hstored : ∀ p, (s.Save x w rootPath fileInfos).world.valueAt (getDbPath x rootPath)
      (pathKey rootPath) p = (fileInfos.lookup p).map x.marshal := by
    intro p; rw [hworld]; exact q4 p
  have hlocked : getDbPath x rootPath ∉ (s.Save x w rootPath fileInfos).world.locked := by
    rw [hworld, q2, p2, o2]; exact hopen
  obtain ⟨r1, _, _, r4⟩ := openDB_spec (s.Save x w rootPath fileInfos).world
    (getDbPath x rootPath) hlocked
  have hload : s2.load x (s.Save x w rootPath fileInfos).world rootPath =
      ({ s2 with
          settings := s2.settings.insert (formatPath rootPath)
            (readSetting x (openDB (s.Save x w rootPath fileInfos).world (getDbPath x rootPath)).1
              (some (getDbPath x rootPath)) (pathKey rootPath)),
          fileList := s2.fileList.insert (formatPath rootPath)
            (readAllFileInfos x
              (openDB (s.Save x w rootPath fileInfos).world (getDbPath x rootPath)).1
              (some (getDbPath x rootPath)) (pathKey rootPath)) },
        (openDB (s.Save x w rootPath fileInfos).world (getDbPath x rootPath)).1, none) := by
    simp [Adapter.load, r1]
  have hval : ∀ k, (readAllFileInfos x
      (openDB (s.Save x w rootPath fileInfos).world (getDbPath x rootPath)).1
      (some (getDbPath x rootPath)) (pathKey rootPath)).lookup k
        = ((fileInfos.lookup k).map x.marshal).bind x.unmarshal := by
    intro k
    rw [readAllFileInfos_lookup]
    unfold World.valueAt
    rw [r4]
    exact congrArg (fun o => Option.bind o x.unmarshal) (hstored k)
  refine ⟨hpanic, hstored, by rw [hload], _, by rw [hload]; exact AList.lookup_insert _, rfl,
    ?_, ?_, ?_⟩
  · intro p
    rw [← AList.lookup_isSome, ← AList.lookup_isSome, hval p]
    cases hp : fileInfos.lookup p with
    | none => simp
    | some fi =>
      obtain ⟨fi2, h2, _⟩ := hcodec p fi hp
      simp [h2]
  · intro p fi hp
    rw [hval p, hp]
    rfl
  · intro p fi hp
    obtain ⟨fi2, h2, h3⟩ := hcodec p fi hp
    refine ⟨fi2, ?_, h3⟩
    rw [hval p, hp]
    simpa using h2

theorem save_load_roundtrip_witness :
    (exLoaded.Save exExt exWorldOld "/r" exThreeFiles).panicked = false ∧
    (∀ p, (exLoaded.Save exExt exWorldOld "/r" exThreeFiles).world.valueAt (getDbPath exExt "/r")
        (pathKey "/r") p = (exThreeFiles.lookup p).map exExt.marshal) ∧
    (exAdapter.load exExt (exLoaded.Save exExt exWorldOld "/r" exThreeFiles).world "/r").2.2
      = none ∧
    ∃ loaded,
      (exAdapter.load exExt (exLoaded.Save exExt exWorldOld "/r" exThreeFiles).world
          "/r").1.fileList.lookup (formatPath "/r") = some loaded ∧
      loaded = readAllFileInfos exExt
        (openDB (exLoaded.Save exExt exWorldOld "/r" exThreeFiles).world
          (getDbPath exExt "/r")).1
        (some (getDbPath exExt "/r")) (pathKey "/r") ∧
      (∀ p, p ∈ loaded ↔ p ∈ exThreeFiles) ∧
      (∀ p fi, exThreeFiles.lookup p = some fi →
        loaded.lookup p = exExt.unmarshal (exExt.marshal fi)) ∧
      (∀ p fi, exThreeFiles.lookup p = some fi → ∃ fi2, loaded.lookup p = some fi2 ∧
        fi2.FileHashSum = fi.FileHashSum ∧ fi2.FileSize = fi.FileSize ∧
        fi2.FileMtime.Equal fi.FileMtime = true ∧ fi2.FileMode = fi.FileMode) :=
  save_load_roundtrip exExt exLoaded exAdapter exWorldOld "/r" exThreeFiles
    (by simp [exWorldOld, exWorld])
    (by intro f hf; simp [exWorldOld, exWorld] at hf)
    (by decide)
    (by
      intro p fi h
      have hmem : (⟨p, fi⟩ : (_ : String) × FileInfo) ∈ exThreeFiles.entries :=
        AList.mem_lookup_iff.1 (by rw [h]; rfl)
      have hent : exThreeFiles.entries =
          [⟨"/r/c.txt", exFileC⟩, ⟨"/r/b.txt", exFileB⟩, ⟨"/r/a.txt", exFileA⟩] := by decide
      rw [hent] at hmem
      simp only [List.mem_cons, Sigma.mk.inj_iff, heq_eq_eq, List.mem_nil_iff, or_false] at hmem
      rcases hmem with ⟨rfl, rfl⟩ | ⟨rfl, rfl⟩ | ⟨rfl, rfl⟩ <;>
        exact ⟨by decide, by decide, by decide, by decide⟩)
    (by
      intro p fi h
      have hmem : (⟨p, fi⟩ : (_ : String) × FileInfo) ∈ exThreeFiles.entries :=
        AList.mem_lookup_iff.1 (by rw [h]; rfl)
      have hent : exThreeFiles.entries =
          [⟨"/r/c.txt", exFileC⟩, ⟨"/r/b.txt", exFileB⟩, ⟨"/r/a.txt", exFileA⟩] := by decide
      rw [hent] at hmem
      simp only [List.mem_cons, Sigma.mk.inj_iff, heq_eq_eq, List.mem_nil_iff, or_false] at hmem
      rcases hmem with ⟨_, rfl⟩ | ⟨_, rfl⟩ | ⟨_, rfl⟩
      · exact ⟨exFileC, by decide, rfl, rfl, by decide, rfl⟩
      · exact ⟨exFileB, by decide, rfl, rfl, by decide, rfl⟩
      · exact ⟨exFileA, by decide, rfl, rfl, by decide, rfl⟩)

/-! ## Theorems: `hashing` -/

theorem hashStep_other (x : Ext) (s : Adapter) (db : Option String) (rootPath : String)
    (history : FileInfos) (st : HashState) (e : (_ : String) × FileInfo) (k : String)
    (hk : k ≠ e.1) :
    (hashStep x s db rootPath history st e).infos.lookup k = st.infos.lookup k := by
  unfold hashStep
  by_cases hd : e.2.IsDir = true
  · simp [hd]
  · simp only [hd, Bool.not_true, Bool.not_false, if_true]
    split <;> simp [AList.lookup_insert_ne hk]

theorem hashStep_self (x : Ext) (s : Adapter) (db : Option String) (rootPath : String)
    (history : FileInfos) (st : HashState) (e : (_ : String) × FileInfo)
    (hd : e.2.IsDir = false) (hread : (x.readFile e.2.FilePath).isSome = true)
    (hdigest : ∀ c, s.hash c ≠ []) :
    ∃ fi2, (hashStep x s db rootPath history st e).infos.lookup e.1 = some fi2 ∧
      bytesLen fi2.FileHashSum ≠ 0 := by
  obtain ⟨content, hc⟩ := Option.isSome_iff_exists.1 hread
  have hsum : bytesLen (s.hashSum x e.2.FilePath) ≠ 0 := by
    simp [Adapter.hashSum, hc, bytesLen, hdigest content]
  unfold hashStep
  simp only [hd, Bool.not_false, if_true, FileInfo.Path]
  split
  · rename_i hz
    exact ⟨_, AList.lookup_insert _, hsum⟩
  · rename_i hz
    refine ⟨_, AList.lookup_insert _, ?_⟩
    simpa using hz

theorem hash_fold_other (x : Ext) (s : Adapter) (db : Option String) (rootPath : String)
    (history : FileInfos) (l : List ((_ : String) × FileInfo)) (st : HashState) (k : String)
    (hk : k ∉ l.keys) :
    (l.foldl (hashStep x s db rootPath history) st).infos.lookup k = st.infos.lookup k := by
  induction l generalizing st with
  | nil => rfl
  | cons e l ih =>
    simp only [List.foldl_cons]
    rw [List.keys_cons, List.mem_cons, not_or] at hk
    rw [ih _ hk.2, hashStep_other x s db rootPath history st e k hk.1]

theorem hash_fold_self (x : Ext) (s : Adapter) (db : Option String) (rootPath : String)
    (history : FileInfos) (hdigest : ∀ c, s.hash c ≠ [])
    (l : List ((_ : String) × FileInfo)) (nd : l.NodupKeys) (st : HashState)
    (e : (_ : String) × FileInfo) (he : e ∈ l) (hd : e.2.IsDir = false)
    (hread : (x.readFile e.2.FilePath).isSome = true) :
    ∃ fi2, (l.foldl (hashStep x s db rootPath history) st).infos.lookup e.1 = some fi2 ∧
      bytesLen fi2.FileHashSum ≠ 0 := by
  induction l generalizing st with
  | nil => cases he
  | cons a l ih =>
    have hnd := List.nodupKeys_cons.1 nd
    simp only [List.foldl_cons]
    rcases List.mem_cons.1 he with h | h
    · subst h
      rw [hash_fold_other x s db rootPath history l _ e.1 hnd.1]
      exact hashStep_self x s db rootPath history st e hd hread hdigest
    · exact ih hnd.2 _ h

/-- Below its guard `hashing` treats every non-directory alike: when the
collection holds at least one regular file and the digest is never empty,
every entry that is not a directory and whose file can be read has a
non-empty hash sum afterwards, symbolic links included. -/
theorem hashing_hashes_every_file (x : Ext) (s : Adapter) (w : World) (rootPath : String)
    (fileInfos : FileInfos) (hcount : fileInfos.stats.FileCount ≠ 0)
    (hdigest : ∀ c, s.hash c ≠ []) (k : String) (fi : FileInfo)
    (hk : fileInfos.lookup k = some fi) (hd : fi.IsDir = false)
    (hread : (x.readFile fi.FilePath).isSome = true) :
    ∃ fi2, (s.hashing x w rootPath fileInfos).2.lookup k = some fi2 ∧
      bytesLen fi2.FileHashSum ≠ 0 := by
  have hmem : (⟨k, fi⟩ : (_ : String) × FileInfo) ∈ fileInfos.entries :=
    AList.mem_lookup_iff.1 (by rw [hk]; rfl)
  have hc : (fileInfos.stats.FileCount == 0) = false := by simpa using hcount
  unfold Adapter.hashing
  simp only [hc, Bool.false_eq_true, if_false]
  exact hash_fold_self x s _ rootPath _ hdigest fileInfos.entries fileInfos.nodupKeys _
    ⟨k, fi⟩ hmem hd hread

theorem hashing_hashes_every_file_witness :
    ∃ fi2, (exAdapter.hashing exExt exWorld "/r"
        ((AList.singleton "/r/link" exLink).insert "/r/a.txt" exFileNew)).2.lookup "/r/link"
          = some fi2 ∧ bytesLen fi2.FileHashSum ≠ 0 :=
  hashing_hashes_every_file exExt exAdapter exWorld "/r"
    ((AList.singleton "/r/link" exLink).insert "/r/a.txt" exFileNew) (by decide)
    (by intro c; simp [exAdapter]) "/r/link" exLink (by decide) (by decide) (by decide)

/-! ## Theorems: idempotence of the diff -/

/-- C13: running `compareCUD` again on the same root with the current
collection as the first run left it (hash sums copied forward) returns the same
created, updated and deleted key sets, and indeed the same entries under every
key, as the first run. -/
theorem compareCUD_idempotent (s : Adapter) (rootPath : String) (cur : FileInfos) :
    (∀ p, p ∈ (s.compareCUD rootPath (s.compareCUD rootPath cur).current).created ↔
      p ∈ (s.compareCUD rootPath cur).created) ∧
    (∀ p, p ∈ (s.compareCUD rootPath (s.compareCUD rootPath cur).current).updated ↔
      p ∈ (s.compareCUD rootPath cur).updated) ∧
    (∀ p, p ∈ (s.compareCUD rootPath (s.compareCUD rootPath cur).current).deleted ↔
      p ∈ (s.compareCUD rootPath cur).deleted) ∧
    (∀ p, (s.compareCUD rootPath (s.compareCUD rootPath cur).current).created.lookup p =
      (s.compareCUD rootPath cur).created.lookup p) ∧
    (∀ p, (s.compareCUD rootPath (s.compareCUD rootPath cur).current).updated.lookup p =
      (s.compareCUD rootPath cur).updated.lookup p) ∧
    (∀ p, (s.compareCUD rootPath (s.compareCUD rootPath cur).current).deleted.lookup p =
      (s.compareCUD rootPath cur).deleted.lookup p) := by
  have hc : ∀ p, (s.compareCUD rootPath (s.compareCUD rootPath cur).current).created.lookup p =
      (s.compareCUD rootPath cur).created.lookup p := by
    intro p
    rw [compareCUD_created_lookup, compareCUD_created_lookup, compareCUD_current_lookup]
    cases cur.lookup p with
    | none => rfl
    | some c =>
      cases (s.oldFileInfos rootPath).lookup p with
      | none => rfl
      | some o =>
        by_cases hcond : (!c.FileMtime.Equal o.FileMtime || c.FileSize != o.FileSize) = true
        · simp [hcond]
        · simp [hcond]
  have hu : ∀ p, (s.compareCUD rootPath (s.compareCUD rootPath cur).current).updated.lookup p =
      (s.compareCUD rootPath cur).updated.lookup p := by
    intro p
    rw [compareCUD_updated_lookup, compareCUD_updated_lookup, compareCUD_current_lookup]
    cases cur.lookup p with
    | none => rfl
    | some c =>
      cases (s.oldFileInfos rootPath).lookup p with
      | none => rfl
      | some o =>
        by_cases hcond : (!c.FileMtime.Equal o.FileMtime || c.FileSize != o.FileSize) = true
        · simp [hcond]
        · simp [hcond]
  have hd : ∀ p, (s.compareCUD rootPath (s.compareCUD rootPath cur).current).deleted.lookup p =
      (s.compareCUD rootPath cur).deleted.lookup p := by
    intro p
    rw [compareCUD_deleted_lookup, compareCUD_deleted_lookup, compareCUD_current_lookup]
    cases (s.oldFileInfos rootPath).lookup p with
    | none => rfl
    | some o =>
      cases cur.lookup p with
      | none => rfl
      | some c =>
        by_cases hcond : (!c.FileMtime.Equal o.FileMtime || c.FileSize != o.FileSize) = true
        · simp [hcond]
        · simp [hcond]
  refine ⟨fun p => ?_, fun p => ?_, fun p => ?_, hc, hu, hd⟩
  · rw [← AList.lookup_isSome, ← AList.lookup_isSome, hc p]
  · rw [← AList.lookup_isSome, ← AList.lookup_isSome, hu p]
  · rw [← AList.lookup_isSome, ← AList.lookup_isSome, hd p]

/-! ## Theorems: `load` -/

theorem compareCUD_no_prior (s : Adapter) (rootPath : String) (cur : FileInfos)
    (h : s.fileList.lookup (formatPath rootPath) = none) :
    (∀ p, (s.compareCUD rootPath cur).created.lookup p = cur.lookup p) ∧
    (s.compareCUD rootPath cur).updated.entries = [] ∧
    (s.compareCUD rootPath cur).deleted.entries = [] := by
  have hold : s.oldFileInfos rootPath = ∅ := by
    rw [oldFileInfos_eq, h]; rfl
  refine ⟨fun p => ?_, alist_entries_nil _ (fun p => ?_), alist_entries_nil _ (fun p => ?_)⟩
  · rw [compareCUD_created_lookup, hold]; cases cur.lookup p <;> simp
  · rw [compareCUD_updated_lookup, hold]; cases cur.lookup p <;> simp
  · rw [compareCUD_deleted_lookup, hold]; simp

theorem load_locked (x : Ext) (s : Adapter) (w : World) (rootPath : String)
    (h : getDbPath x rootPath ∈ w.locked) :
    s.load x w rootPath =
      (s, { w with log := w.log ++ [StoreOp.openDB (getDbPath x rootPath)] },
        some BoltErr.openFailed) := by
  simp [Adapter.load, openDB, h]

/-- C12, as amended: when the store file of a root cannot be opened, `load`
returns the open error to its caller (and `LoadAll` hands it on), writes
nothing and leaves the adapter as it was; for a root the adapter holds no
collection of, the prior state is then the empty collection and the next
comparison classifies every current entry as created, none as updated or
deleted. -/
theorem load_store_unavailable (x : Ext) (s : Adapter) (w : World) (rootPath : String)
    (h : getDbPath x rootPath ∈ w.locked) :
    (s.load x w rootPath).2.2 = some BoltErr.openFailed ∧
    (s.LoadAll x w [rootPath]).2.2 = [BoltErr.openFailed] ∧
    (s.load x w rootPath).1 = s ∧
    (s.load x w rootPath).2.1.disk = w.disk ∧
    (s.fileList.lookup (formatPath rootPath) = none →
      (s.load x w rootPath).1.oldFileInfos rootPath = NewFileInfos ∧
      ∀ cur,
        (∀ p, ((s.load x w rootPath).1.compareCUD rootPath cur).created.lookup p = cur.lookup p) ∧
        ((s.load x w rootPath).1.compareCUD rootPath cur).updated.entries = [] ∧
        ((s.load x w rootPath).1.compareCUD rootPath cur).deleted.entries = []) := by
  have hl := load_locked x s w rootPath h
  refine ⟨by rw [hl], ?_, by rw [hl], by rw [hl], fun hnone => ?_⟩
  · simp [Adapter.LoadAll, hl]
  · rw [hl]
    refine ⟨?_, fun cur => compareCUD_no_prior s rootPath cur hnone⟩
    simp [Adapter.oldFileInfos, hnone]

theorem load_store_unavailable_witness :
    (exAdapter.load exExt exWorldLocked "/r").2.2 = some BoltErr.openFailed ∧
    (exAdapter.LoadAll exExt exWorldLocked ["/r"]).2.2 = [BoltErr.openFailed] ∧
    (exAdapter.load exExt exWorldLocked "/r").1 = exAdapter ∧
    (exAdapter.load exExt exWorldLocked "/r").2.1.disk = exWorldLocked.disk ∧
    (exAdapter.fileList.lookup (formatPath "/r") = none →
      (exAdapter.load exExt exWorldLocked "/r").1.oldFileInfos "/r" = NewFileInfos ∧
      ∀ cur,
        (∀ p, ((exAdapter.load exExt exWorldLocked "/r").1.compareCUD "/r" cur).created.lookup p
          = cur.lookup p) ∧
        ((exAdapter.load exExt exWorldLocked "/r").1.compareCUD "/r" cur).updated.entries = [] ∧
        ((exAdapter.load exExt exWorldLocked "/r").1.compareCUD "/r" cur).deleted.entries = []) :=
  load_store_unavailable exExt exAdapter exWorldLocked "/r" (by decide)

/-- The store file of the root `/r` cannot be opened and `load` returns an
error instead of none. -/
theorem load_locked_counterexample :
    ¬ (getDbPath exExt "/r" ∈ exWorldLocked.locked →
      (exAdapter.load exExt exWorldLocked "/r").2.2 = none) := by
  decide

/-! ## Theorems: the chunks of `putFileInfos` -/

theorem update_log (w : World) (path : String) (op : StoreOp)
    (fn : Buckets → Except BoltErr Buckets) :
    (w.update path op fn).1.log = w.log ++ [op] := by
  unfold World.update
  cases fn (w.buckets path) with
  | error err => rfl
  | ok b =>
    cases hfl : w.faults with
    | nil => simp [hfl]
    | cons f rest => cases f <;> simp [hfl]

theorem batches_fold_log (x : Ext) (path bucketName : String) (L : List FileInfos)
    (acc : World × List BoltErr) :
    (L.foldl (fun (acc : World × List BoltErr) chunk =>
        ((acc.1.update path (StoreOp.batch path bucketName chunk.keys)
            (batchFn x bucketName chunk)).1,
          acc.2 ++ (acc.1.update path (StoreOp.batch path bucketName chunk.keys)
            (batchFn x bucketName chunk)).2.toList)) acc).1.log
      = acc.1.log ++ L.map (fun chunk => StoreOp.batch path bucketName chunk.keys) ∧
    (L.foldl (fun (acc : World × List BoltErr) chunk =>
        ((acc.1.update path (StoreOp.batch path bucketName chunk.keys)
            (batchFn x bucketName chunk)).1,
          acc.2 ++ (acc.1.update path (StoreOp.batch path bucketName chunk.keys)
            (batchFn x bucketName chunk)).2.toList)) acc).2
      = acc.2 ++ (batchOutcomes x path bucketName L acc.1).reduceOption := by
  induction L generalizing acc with
  | nil => simp [batchOutcomes]
  | cons c L ih =>
    simp only [List.foldl_cons]
    obtain ⟨h1, h2⟩ := ih ((acc.1.update path (StoreOp.batch path bucketName c.keys)
        (batchFn x bucketName c)).1,
      acc.2 ++ (acc.1.update path (StoreOp.batch path bucketName c.keys)
        (batchFn x bucketName c)).2.toList)
    constructor
    · rw [h1, update_log]; simp
    · rw [h2]
      simp only [batchOutcomes]
      cases (acc.1.update path (StoreOp.batch path bucketName c.keys)
        (batchFn x bucketName c)).2 with
      | none => simp [List.reduceOption_cons_of_none]
      | some err => simp [List.reduceOption_cons_of_some]

theorem batchOutcomes_length (x : Ext) (path bucketName : String) (L : List FileInfos)
    (w : World) : (batchOutcomes x path bucketName L w).length = L.length := by
  induction L generalizing w with
  | nil => rfl
  | cons c L ih => simp [batchOutcomes, ih]

theorem reduceOption_eq_nil (l : List (Option BoltErr)) :
    l.reduceOption = [] ↔ ∀ o ∈ l, o = none := by
  induction l with
  | nil => simp
  | cons o l ih =>
    cases o with
    | none => simp [List.reduceOption_cons_of_none, ih]
    | some err => simp [List.reduceOption_cons_of_some]

theorem reduceOption_mem (l : List (Option BoltErr)) (err : BoltErr) :
    err ∈ l.reduceOption ↔ some err ∈ l := by
  induction l with
  | nil => simp
  | cons o l ih =>
    cases o with
    | none => simp [List.reduceOption_cons_of_none, ih]
    | some e2 => simp [List.reduceOption_cons_of_some, ih, eq_comm]

theorem chunkStep_fresh (acc : Nat × List FileInfos × FileInfos) (e : (_ : String) × FileInfo)
    (hfresh : ∀ c ∈ acc.2.1 ++ [acc.2.2], c.lookup e.1 = none)
    (k : String) (hk : k ≠ e.1) (hold : ∀ c ∈ acc.2.1 ++ [acc.2.2], c.lookup k = none) :
    ∀ c ∈ (chunkStep acc e).2.1 ++ [(chunkStep acc e).2.2], c.lookup k = none := by
  intro c hc
  cases hcl : c.lookup k with
  | none => rfl
  | some v =>
    exfalso
    rcases (chunkStep_lookup acc e hfresh k v).1 ⟨c, hc, hcl⟩ with ⟨c3, hc3, hv3⟩ | ⟨hk2, _⟩
    · rw [hold c3 hc3] at hv3; cases hv3
    · exact hk hk2

theorem chunkStep_shape (acc : Nat × List FileInfos × FileInfos) (e : (_ : String) × FileInfo)
    (hfresh : ∀ c ∈ acc.2.1 ++ [acc.2.2], c.lookup e.1 = none)
    (hsize : ∀ c ∈ acc.2.1, c.entries.length ≤ 1000)
    (htmp : acc.2.2.entries.length = acc.1 % 1000) :
    (∀ c ∈ (chunkStep acc e).2.1, c.entries.length ≤ 1000) ∧
    (chunkStep acc e).2.2.entries.length = (chunkStep acc e).1 % 1000 ∧
    (((chunkStep acc e).2.1 ++ [(chunkStep acc e).2.2]).map (fun c => c.entries)).flatten.Perm
      (((acc.2.1 ++ [acc.2.2]).map (fun c => c.entries)).flatten ++ [e]) := by
  have hnot : e.1 ∉ acc.2.2 :=
    AList.lookup_eq_none.1 (hfresh acc.2.2 (List.mem_append_right _ (List.mem_singleton.2 rfl)))
  have hins : (acc.2.2.insert e.1 e.2).entries = e :: acc.2.2.entries :=
    AList.insert_entries_of_neg hnot
  have hperm : ((acc.2.1 ++ [acc.2.2.insert e.1 e.2]).map (fun c => c.entries)).flatten.Perm
      (((acc.2.1 ++ [acc.2.2]).map (fun c => c.entries)).flatten ++ [e]) := by
    simp only [List.map_append, List.map_cons, List.map_nil, List.flatten_append,
      List.flatten_cons, List.flatten_nil, List.append_nil, hins, List.append_assoc]
    exact List.Perm.append_left _ (List.perm_append_singleton e acc.2.2.entries).symm
  unfold chunkStep
  by_cases h : ((acc.1 + 1) % 1000 == 0) = true
  · simp only [h, if_true]
    have h0 : (acc.1 + 1) % 1000 = 0 := by simpa using h
    refine ⟨?_, ?_, ?_⟩
    · intro c hc
      rcases List.mem_append.1 hc with hc | hc
      · exact hsize c hc
      · rw [List.mem_singleton] at hc
        subst hc
        rw [hins, List.length_cons, htmp]
        omega
    · rw [h0]; rfl
    · have hnil : ((acc.2.1 ++ [acc.2.2.insert e.1 e.2] ++ [NewFileInfos]).map
          (fun c => c.entries)).flatten =
          ((acc.2.1 ++ [acc.2.2.insert e.1 e.2]).map (fun c => c.entries)).flatten := by
        simp [NewFileInfos]
      rw [hnil]
      exact hperm
  · simp only [h]
    have h0 : (acc.1 + 1) % 1000 ≠ 0 := by simpa using h
    refine ⟨hsize, ?_, hperm⟩
    show (acc.2.2.insert e.1 e.2).entries.length = (acc.1 + 1) % 1000
    rw [hins, List.length_cons, htmp]
    omega

theorem chunk_fold_shape (l : List ((_ : String) × FileInfo)) (nd : l.NodupKeys)
    (acc : Nat × List FileInfos × FileInfos)
    (hfresh : ∀ e ∈ l, ∀ c ∈ acc.2.1 ++ [acc.2.2], c.lookup e.1 = none)
    (hsize : ∀ c ∈ acc.2.1, c.entries.length ≤ 1000)
    (htmp : acc.2.2.entries.length = acc.1 % 1000) :
    (∀ c ∈ (l.foldl chunkStep acc).2.1, c.entries.length ≤ 1000) ∧
    (l.foldl chunkStep acc).2.2.entries.length = (l.foldl chunkStep acc).1 % 1000 ∧
    (((l.foldl chunkStep acc).2.1 ++ [(l.foldl chunkStep acc).2.2]).map
        (fun c => c.entries)).flatten.Perm
      (((acc.2.1 ++ [acc.2.2]).map (fun c => c.entries)).flatten ++ l) := by
  induction l generalizing acc with
  | nil => exact ⟨hsize, htmp, by simp⟩
  | cons e l ih =>
    have hnd := List.nodupKeys_cons.1 nd
    obtain ⟨s1, s2, s3⟩ := chunkStep_shape acc e (hfresh e (List.mem_cons_self _ _)) hsize htmp
    have hfresh2 : ∀ e2 ∈ l, ∀ c ∈ (chunkStep acc e).2.1 ++ [(chunkStep acc e).2.2],
        c.lookup e2.1 = none := by
      intro e2 h2
      exact chunkStep_fresh acc e (hfresh e (List.mem_cons_self _ _)) e2.1
        (fun hk => hnd.1 (hk ▸ List.mem_keys_of_mem h2))
        (hfresh e2 (List.mem_cons_of_mem _ h2))
    obtain ⟨i1, i2, i3⟩ := ih hnd.2 (chunkStep acc e) hfresh2 s1 s2
    simp only [List.foldl_cons]
    refine ⟨i1, i2, i3.trans ?_⟩
    have := List.Perm.append_right l s3
    simpa [List.append_assoc] using this

/-- The chunks of a collection hold at most 1000 entries each and, taken
together, the entries of the collection, each once. -/
theorem chunkInfos_shape (infos : FileInfos) :
    (∀ c ∈ chunkInfos infos, c.entries.length ≤ 1000) ∧
    ((chunkInfos infos).map (fun c => c.entries)).flatten.Perm infos.entries := by
  obtain ⟨h1, h2, h3⟩ := chunk_fold_shape infos.entries infos.nodupKeys (0, [], NewFileInfos)
    (by intro e _ c hc; simp at hc; subst hc; rfl) (by intro c hc; cases hc) rfl
  unfold chunkInfos
  refine ⟨?_, ?_⟩
  · intro c hc
    rcases List.mem_append.1 hc with hc | hc
    · exact h1 c hc
    · rw [List.mem_singleton] at hc
      subst hc
      rw [h2]
      exact Nat.le_of_lt (Nat.mod_lt _ (by decide))
  · simpa [NewFileInfos] using h3

/-- C11: `putFileInfos` on an open store splits the collection into chunks of
at most 1000 entries whose entries together are the entries of the
collection, each once; it calls `db.Batch` once for every chunk, in order and
whatever the outcome of the earlier calls (the log of the store gains one
batch per chunk and every chunk has an outcome); and the errors it returns are
exactly the errors of the chunks whose write failed, so that the returned
error is nil exactly when the write of every chunk succeeded.  With a nil
handle there is no store to write to: the method returns nil at once. -/
theorem putFileInfos_chunks (x : Ext) (w : World) (path bucketName : String) (infos : FileInfos)
    (deleteHistory : Bool) :
    (∀ c ∈ chunkInfos infos, c.entries.length ≤ 1000) ∧
    ((chunkInfos infos).map (fun c => c.entries)).flatten.Perm infos.entries ∧
    (putFileInfos x w (some path) bucketName infos deleteHistory).1.log =
      (if deleteHistory = true then
          (w.update path (StoreOp.deleteBucket path bucketName) (deleteBucketFn bucketName)).1
        else w).log ++
      (chunkInfos infos).map (fun c => StoreOp.batch path bucketName c.keys) ∧
    (batchOutcomes x path bucketName (chunkInfos infos)
      (if deleteHistory = true then
          (w.update path (StoreOp.deleteBucket path bucketName) (deleteBucketFn bucketName)).1
        else w)).length = (chunkInfos infos).length ∧
    (putFileInfos x w (some path) bucketName infos deleteHistory).2 =
      (batchOutcomes x path bucketName (chunkInfos infos)
        (if deleteHistory = true then
            (w.update path (StoreOp.deleteBucket path bucketName) (deleteBucketFn bucketName)).1
          else w)).reduceOption ∧
    ((putFileInfos x w (some path) bucketName infos deleteHistory).2 = [] ↔
      ∀ o ∈ batchOutcomes x path bucketName (chunkInfos infos)
        (if deleteHistory = true then
            (w.update path (StoreOp.deleteBucket path bucketName) (deleteBucketFn bucketName)).1
          else w), o = none) ∧
    (∀ err, err ∈ (putFileInfos x w (some path) bucketName infos deleteHistory).2 ↔
      some err ∈ batchOutcomes x path bucketName (chunkInfos infos)
        (if deleteHistory = true then
            (w.update path (StoreOp.deleteBucket path bucketName) (deleteBucketFn bucketName)).1
          else w)) ∧
    putFileInfos x w none bucketName infos deleteHistory = (w, []) := by
  obtain ⟨hsize, hperm⟩ := chunkInfos_shape infos
  obtain ⟨hlog, herr⟩ := batches_fold_log x path bucketName (chunkInfos infos)
    ((if deleteHistory = true then
        (w.update path (StoreOp.deleteBucket path bucketName) (deleteBucketFn bucketName)).1
      else w), [])
  have hdef : putFileInfos x w (some path) bucketName infos deleteHistory =
      (chunkInfos infos).foldl (fun (acc : World × List BoltErr) chunk =>
        ((acc.1.update path (StoreOp.batch path bucketName chunk.keys)
            (batchFn x bucketName chunk)).1,
          acc.2 ++ (acc.1.update path (StoreOp.batch path bucketName chunk.keys)
            (batchFn x bucketName chunk)).2.toList))
        ((if deleteHistory = true then
            (w.update path (StoreOp.deleteBucket path bucketName) (deleteBucketFn bucketName)).1
          else w), []) := rfl
  have herr2 : (putFileInfos x w (some path) bucketName infos deleteHistory).2 =
      (batchOutcomes x path bucketName (chunkInfos infos)
        (if deleteHistory = true then
            (w.update path (StoreOp.deleteBucket path bucketName) (deleteBucketFn bucketName)).1
          else w)).reduceOption := by
    rw [hdef, herr]; simp
  refine ⟨hsize, hperm, ?_, batchOutcomes_length _ _ _ _ _, herr2, ?_, ?_, rfl⟩
  · rw [hdef, hlog]
  · rw [herr2]; exact reduceOption_eq_nil _
  · intro err; rw [herr2]; exact reduceOption_mem _ err

/-- Two chunks written while the first commit fails: the first chunk fails,
the second is attempted all the same and is written. -/
theorem batchOutcomes_after_failure :
    batchOutcomes exExt "/r/.watch.db" "/r"
        [AList.singleton "/r/a.txt" exFileA, AList.singleton "/r/b.txt" exFileB]
        { exWorld with faults := [true] }
      = [some BoltErr.commitFailed, none] := by
  decide

end Watcher
